import Mathlib

/-!
Box filter on aarch64 (ppl.cv): engine contract and benchmark harness.

The repository file `src/ppl/cv/arm/boxfilter_benchmark.cpp` holds the benchmark
harness of `ppl::cv::arm::BoxFilter`.  The engine itself (`boxfilter.h` and its
implementation) is not part of the sources at hand; its behaviour is modelled
from the specification (sections 3, 4 and 6) and every such definition says so
in its doc comment.

Conventions of the embedding:
* 8-bit samples and 32-bit accumulators are natural numbers; 32-bit unsigned
  arithmetic is made explicit with `% U32`;
* coordinates are integers (they may be negative before extrapolation);
* buffers are flat lists addressed as `row * stride + col * channels + ch`;
* `float` and `double` values are the rationals they denote (`none` when not finite);
  every operation rounds its exact result to nearest, ties to even;
* a failing call returns `Except.error`.
-/

namespace PplCv

/-! ## Data model -/

/-- Modelled from the spec: border policy `ppl::cv::BorderType`, declared in a header that
is not in the sources.  These are the three modes of specification section 3, under the
names the harness uses for them. -/
inductive BorderType where
  | BORDER_REPLICATE
  | BORDER_REFLECT
  | BORDER_REFLECT_101
  deriving DecidableEq, Repr

/-- Modelled from the spec: the error condition a call of the engine can fail with
(section 7). -/
inductive Error where
  | InvalidArgument
  deriving DecidableEq, Repr

/-- Modelled from the spec: number of values of the 32-bit unsigned accumulator of section
4.2, `2^32`. -/
def U32 : Nat := 4294967296

/-- Modelled from the spec: largest value of an 8-bit unsigned sample. -/
def U8_MAX : Nat := 255

/-! ## Border Extrapolator (specification 4.1) -/

/-- Modelled from the spec: one mirroring of an out-of-range coordinate at the boundary it
crossed.  `delta = 0` repeats the edge sample (`REFLECT`: `-1 → 0`, `limit → limit-1`),
`delta = 1` does not (`REFLECT_101`: `-1 → 1`, `limit → limit-2`). -/
def mirror (coord limit delta : Int) : Int :=
  if coord < 0 then -coord - 1 + delta else limit - 1 - (coord - limit) - delta

/-- Modelled from the spec: mirror until the coordinate is inside `[0, limit-1]`; the
coordinate "may be negative or ≥ limit" by any amount, so one mirroring is not enough for
a kernel larger than the image.  The first argument bounds the number of mirrorings. -/
def mirrorLoop : Nat → Int → Int → Int → Int
  | 0, coord, _, _ => coord
  | fuel + 1, coord, limit, delta =>
    if 0 ≤ coord ∧ coord < limit then coord
    else mirrorLoop fuel (mirror coord limit delta) limit delta

/-- Modelled from the spec: `extrapolate(coord, limit, mode) -> validCoord` of section 4.1,
whose implementation is not in the sources.  `REPLICATE` clamps to `[0, limit-1]`,
`REFLECT` mirrors including the edge sample, `REFLECT_101` mirrors excluding it.  Every
mirroring brings the coordinate closer to the range by at least one (for `limit ≥ 1`,
`limit ≥ 2` for `REFLECT_101`), so `|coord| + 1` mirrorings always suffice. -/
def extrapolate (coord limit : Int) (mode : BorderType) : Int :=
  match mode with
  | .BORDER_REPLICATE => if coord < 0 then 0 else if coord ≥ limit then limit - 1 else coord
  | .BORDER_REFLECT => mirrorLoop (coord.natAbs + 1) coord limit 0
  | .BORDER_REFLECT_101 => mirrorLoop (coord.natAbs + 1) coord limit 1

/-! ## Sliding-window accumulation (specification 4.2, 4.3) -/

/-- Modelled from the spec: kernel extent before the anchor, `before = k/2`. -/
def kernelBefore (k : Nat) : Nat := k / 2

/-- Modelled from the spec: kernel extent after the anchor, `after = k-1-before`. -/
def kernelAfter (k : Nat) : Nat := k - 1 - kernelBefore k

/-- Modelled from the spec: accumulation of samples in a 32-bit unsigned integer (4.2,
"Precision"): starting from 0, every sample is added modulo `2^32`, left to right. -/
def accumulateU32 (samples : List Nat) : Nat :=
  samples.foldl (fun sum x => (sum + x) % U32) 0

/-- Modelled from the spec: cold start of a sliding window (4.2 step 1).  The sum for
position 0 explicitly sums the `before + after + 1` extrapolated samples of the window. -/
def seedSum (f : Int → Nat) (limit : Int) (before after : Nat) (mode : BorderType) : Nat :=
  accumulateU32 ((List.range (before + after + 1)).map
    (fun (i : Nat) => f (extrapolate ((i : Int) - (before : Int)) limit mode)))

/-- Modelled from the spec: one window advance `sum += entering − leaving` in 32-bit
unsigned arithmetic (4.2 step 2). -/
def slideStep (sum entering leaving : Nat) : Nat :=
  (((sum : Int) + ((entering : Int) - (leaving : Int))) % (U32 : Int)).toNat

/-- Modelled from the spec: the incremental sliding window along one axis.  `f` reads the
sample at a valid coordinate of that axis, `limit` is the axis length.  Position 0 is
seeded by `seedSum`; position `c+1` is obtained from position `c` by adding the sample at
`extrapolate(c+1+after)` and subtracting the one at `extrapolate(c+1-before-1)`. -/
def slidingSum (f : Int → Nat) (limit : Int) (before after : Nat) (mode : BorderType) :
    Nat → Nat
  | 0 => seedSum f limit before after mode
  | c + 1 =>
    slideStep (slidingSum f limit before after mode c)
      (f (extrapolate (((c + 1 : Nat) : Int) + (after : Int)) limit mode))
      (f (extrapolate (((c + 1 : Nat) : Int) - (before : Int) - 1) limit mode))

/-- Modelled from the spec: direct (re-summing) window sum at position `c`, the contract
of 4.2: `Σ over j ∈ [-before, after] of f (extrapolate (c+j))`, in unbounded arithmetic. -/
def directSum (f : Int → Nat) (limit : Int) (before after : Nat) (mode : BorderType)
    (c : Nat) : Nat :=
  ∑ i in Finset.range (before + after + 1),
    f (extrapolate ((c : Int) + (i : Int) - (before : Int)) limit mode)

/-- Modelled from the spec: sample `ch` of the pixel at column `col` of an interleaved row
(section 6); a read outside the row yields 0. -/
def rowSample (row : List Nat) (channels : Nat) (ch : Nat) (col : Int) : Nat :=
  row.getD (col.toNat * channels + ch) 0

/-- Modelled from the spec: Horizontal Accumulator (4.2).  From one input row of
`width*channels` interleaved samples it produces `width*channels` 32-bit sums; entry
`c*channels + ch` is the sliding sum of channel `ch` at column `c`. -/
def hAccumulate (row : List Nat) (width channels before after : Nat) (mode : BorderType) :
    List Nat :=
  (List.range (width * channels)).map fun i =>
    slidingSum (rowSample row channels (i % channels)) (width : Int) before after mode
      (i / channels)

/-- Modelled from the spec: row `r` of a strided buffer, the buffer from offset
`r * stride` on (section 6). -/
def bufferRow (buf : List Nat) (stride : Nat) (r : Int) : List Nat :=
  buf.drop (r.toNat * stride)

/-- Modelled from the spec: the intermediate row-sum of source row `r`, the content of one
slot of the row-sum buffer of 4.3.  The circular buffer of 4.3 only keeps these arrays
alive; the values are those of the Horizontal Accumulator on row `r`. -/
def rowSums (src : List Nat) (channels width srcStride kx : Nat) (mode : BorderType)
    (r : Int) : List Nat :=
  hAccumulate (bufferRow src srcStride r) width channels (kernelBefore kx) (kernelAfter kx) mode

/-- Modelled from the spec: Vertical Accumulator (4.3), mirroring 4.2 along rows.  Entry
`i` of output row `r` is the sliding sum over the row-sums of the `ky` rows around `r`,
with the row index extrapolated at the top and bottom of the image. -/
def windowSum (src : List Nat) (channels height width srcStride kx ky : Nat)
    (mode : BorderType) (r i : Nat) : Nat :=
  slidingSum (fun ρ => (rowSums src channels width srcStride kx mode ρ).getD i 0)
    (height : Int) (kernelBefore ky) (kernelAfter ky) mode r

/-- Modelled from the spec: saturating cast to the 8-bit destination type (4.4). -/
def saturateU8 (x : Nat) : Nat := min x U8_MAX

/-- Modelled from the spec: rounded quotient `round(sum / area)` of 4.4, halves rounded away
from zero. -/
def roundDiv (sum area : Nat) : Nat := (2 * sum + area) / (2 * area)

/-- Modelled from the spec: `normalize(sum, area, normalizeFlag, uint8)`.  Without
normalization the sum is saturated to the destination range; with it the output is
`round(sum / area)`.  The spec leaves the rounding rule open between the rules it names;
the first one, round-half-away-from-zero, is taken here. -/
def normalizeU8 (sum area : Nat) (normalizeFlag : Bool) : Nat :=
  if normalizeFlag then saturateU8 (roundDiv sum area) else saturateU8 sum

/-! ## Box Filter Engine (specification 4.5) -/

/-- Modelled from the spec: the validation of 4.5.  `kx, ky ≥ 1`, both strides at least
`width*channels`, and for `REFLECT_101` a dimension of at least 2 along every axis whose
kernel extent exceeds 1. -/
def validArguments (channels : Nat) (height width srcStride : Int) (kx ky : Int)
    (dstStride : Int) (mode : BorderType) : Bool :=
  decide (1 ≤ kx) && decide (1 ≤ ky) &&
  decide (width * channels ≤ srcStride) && decide (width * channels ≤ dstStride) &&
  (if mode = .BORDER_REFLECT_101 then
     (decide (kx > 1 → 2 ≤ width)) && (decide (ky > 1 → 2 ≤ height))
   else true)

/-- Modelled from the spec: `boxFilter(height, width, srcStride, src, kx, ky, normalize,
dstStride, dst, borderMode)` for 8-bit samples with `channels` interleaved channels.
Invalid arguments fail with `InvalidArgument` and produce no output.  Otherwise the
returned buffer is `dst` in which sample `r*dstStride + c*channels + ch` of every pixel
holds the normalized window sum; row padding keeps its content. -/
def boxFilter (channels : Nat) (height width srcStride : Nat) (src : List Nat)
    (kx ky : Int) (normalize : Bool) (dstStride : Nat) (dst : List Nat)
    (mode : BorderType) : Except Error (List Nat) :=
  if validArguments channels height width srcStride kx ky dstStride mode then
    .ok ((List.range dst.length).map fun p =>
      if p / dstStride < height ∧ p % dstStride < width * channels then
        normalizeU8
          (windowSum src channels height width srcStride kx.toNat ky.toNat mode
            (p / dstStride) (p % dstStride))
          (kx.toNat * ky.toNat) normalize
      else dst.getD p 0)
  else .error .InvalidArgument

/-! ## Binary floating point (element type `float`, harness arithmetic on `double`) -/

/-- Power of two `2^k` for an integer exponent, as a rational. -/
def pow2 (k : Int) : ℚ :=
  if 0 ≤ k then ((2 ^ k.toNat : Nat) : ℚ) else 1 / ((2 ^ (-k).toNat : Nat) : ℚ)

/-- Number of halvings that bring `n` below 2, with at most `fuel` halvings. -/
def log2Fuel : Nat → Nat → Nat
  | 0, _ => 0
  | fuel + 1, n => if 2 ≤ n then log2Fuel fuel (n / 2) + 1 else 0

/-- Floor of the binary logarithm of a positive natural number. -/
def natLog2 (n : Nat) : Nat := log2Fuel n n

/-- Floor of the binary logarithm of a positive rational: the exponent `e` with
`2^e ≤ x < 2^(e+1)`. -/
def ilog2 (x : ℚ) : Int :=
  let k : Int := (natLog2 x.num.natAbs : Int) - (natLog2 x.den : Int)
  if pow2 k ≤ x then k else k - 1

/-- Nearest integer, ties to the even one. -/
def roundHalfEven (y : ℚ) : Int :=
  let f : Int := ⌊y⌋
  let r : ℚ := y - (f : ℚ)
  if r < 1 / 2 then f else if 1 / 2 < r then f + 1 else if f % 2 = 0 then f else f + 1

/-- IEEE 754 binary rounding to nearest, ties to even, of an exact result `x` in the format
with `prec` significand bits and exponent range `[emin, emax]`, subnormals included.  A
finite result is `some` of its value; `none` stands for an overflow to infinity.  Values
are compared as numbers, so `+0` and `-0` are one value. -/
def roundBinary (prec : Nat) (emin emax : Int) (x : ℚ) : Option ℚ :=
  if x = 0 then some 0
  else
    let e := ilog2 |x|
    let q := pow2 (max e emin - ((prec : Int) - 1))
    let y := (roundHalfEven (x / q) : ℚ) * q
    if |y| < pow2 (emax + 1) then some y else none

/-- Values of the C type `double` (binary64): `some x` is the finite value `x`, `none` a
value that is not finite. -/
abbrev F64 : Type := Option ℚ

/-- Rounding of an exact result to binary64. -/
def roundF64 (x : ℚ) : F64 := roundBinary 53 (-1022) 1023 x

/-- Product `a * b` of two binary64 values: the exact product rounded once. -/
def fmul64 (a b : F64) : F64 :=
  match a, b with
  | some x, some y => roundF64 (x * y)
  | _, _ => none

/-- Quotient `a / d` of a binary64 value by a finite binary64 value `d`. -/
def fdiv64 (a : F64) (d : ℚ) : F64 :=
  match a with
  | some x => if d = 0 then none else roundF64 (x / d)
  | none => none

/-! ## Box filter on `float` samples (specification 4.2 to 4.5, "Precision") -/

/-- Element types the harness instantiates the templates with. -/
inductive ElemType where
  | uint8_t
  | float
  deriving DecidableEq, Repr

/-- Size `sizeof(T)` in bytes. -/
def sizeofT : ElemType → Nat
  | .uint8_t => 1
  | .float => 4

/-- Modelled from the spec: channel-count constant `c1`, declared in
`utility/infrastructure.hpp`, which is not in the sources; the spec gives the channel
counts 1, 3 and 4. -/
def c1 : Nat := 1

/-- Modelled from the spec: channel-count constant `c3` (see `c1`). -/
def c3 : Nat := 3

/-- Modelled from the spec: channel-count constant `c4` (see `c1`). -/
def c4 : Nat := 4

/-- One `BENCHMARK_TEMPLATE(...)->Args(...)->UseManualTime()->Iterations(...)` registration:
the template arguments and the settings chained onto it. -/
structure Registration where
  type : ElemType
  channels : Nat
  ksize_x : Int
  ksize_y : Int
  border_type : BorderType
  args : List Int
  useManualTime : Bool
  iterations : Nat
  deriving DecidableEq, Repr

/-- Expansion of the macro `RUN_PPL_CV_TYPE_FUNCTIONS(type, ksize_x, ksize_y, border_type)`
(lines 80-92): three registrations, for `c1`, `c3` and `c4`. -/
def RUN_PPL_CV_TYPE_FUNCTIONS (type : ElemType) (ksize_x ksize_y : Int)
    (border_type : BorderType) : List Registration :=
  [ ⟨type, c1, ksize_x, ksize_y, border_type, [640, 480], true, 10⟩,
    ⟨type, c3, ksize_x, ksize_y, border_type, [640, 480], true, 10⟩,
    ⟨type, c4, ksize_x, ksize_y, border_type, [640, 480], true, 10⟩ ]

/-- Registrations of `BM_BoxFilter_ppl_aarch64` (lines 94-120), in source order. -/
def registeredPpl : List Registration :=
  RUN_PPL_CV_TYPE_FUNCTIONS .uint8_t 3 3 .BORDER_REPLICATE ++
  RUN_PPL_CV_TYPE_FUNCTIONS .uint8_t 3 3 .BORDER_REFLECT ++
  RUN_PPL_CV_TYPE_FUNCTIONS .uint8_t 3 3 .BORDER_REFLECT_101 ++
  RUN_PPL_CV_TYPE_FUNCTIONS .float 3 3 .BORDER_REPLICATE ++
  RUN_PPL_CV_TYPE_FUNCTIONS .float 3 3 .BORDER_REFLECT ++
  RUN_PPL_CV_TYPE_FUNCTIONS .float 3 3 .BORDER_REFLECT_101 ++
  RUN_PPL_CV_TYPE_FUNCTIONS .uint8_t 5 5 .BORDER_REPLICATE ++
  RUN_PPL_CV_TYPE_FUNCTIONS .uint8_t 5 5 .BORDER_REFLECT ++
  RUN_PPL_CV_TYPE_FUNCTIONS .uint8_t 5 5 .BORDER_REFLECT_101 ++
  RUN_PPL_CV_TYPE_FUNCTIONS .float 5 5 .BORDER_REPLICATE ++
  RUN_PPL_CV_TYPE_FUNCTIONS .float 5 5 .BORDER_REFLECT ++
  RUN_PPL_CV_TYPE_FUNCTIONS .float 5 5 .BORDER_REFLECT_101 ++
  RUN_PPL_CV_TYPE_FUNCTIONS .uint8_t 25 25 .BORDER_REPLICATE ++
  RUN_PPL_CV_TYPE_FUNCTIONS .uint8_t 25 25 .BORDER_REFLECT ++
  RUN_PPL_CV_TYPE_FUNCTIONS .uint8_t 25 25 .BORDER_REFLECT_101 ++
  RUN_PPL_CV_TYPE_FUNCTIONS .float 25 25 .BORDER_REPLICATE ++
  RUN_PPL_CV_TYPE_FUNCTIONS .float 25 25 .BORDER_REFLECT ++
  RUN_PPL_CV_TYPE_FUNCTIONS .float 25 25 .BORDER_REFLECT_101 ++
  RUN_PPL_CV_TYPE_FUNCTIONS .uint8_t 43 43 .BORDER_REPLICATE ++
  RUN_PPL_CV_TYPE_FUNCTIONS .uint8_t 43 43 .BORDER_REFLECT ++
  RUN_PPL_CV_TYPE_FUNCTIONS .uint8_t 43 43 .BORDER_REFLECT_101 ++
  RUN_PPL_CV_TYPE_FUNCTIONS .float 43 43 .BORDER_REPLICATE ++
  RUN_PPL_CV_TYPE_FUNCTIONS .float 43 43 .BORDER_REFLECT ++
  RUN_PPL_CV_TYPE_FUNCTIONS .float 43 43 .BORDER_REFLECT_101

/-- Expansion of the macro `RUN_OPENCV_TYPE_FUNCTIONS(type, ksize_x, ksize_y, border_type)`
(lines 165-177). -/
def RUN_OPENCV_TYPE_FUNCTIONS (type : ElemType) (ksize_x ksize_y : Int)
    (border_type : BorderType) : List Registration :=
  [ ⟨type, c1, ksize_x, ksize_y, border_type, [640, 480], true, 10⟩,
    ⟨type, c3, ksize_x, ksize_y, border_type, [640, 480], true, 10⟩,
    ⟨type, c4, ksize_x, ksize_y, border_type, [640, 480], true, 10⟩ ]

/-- Registrations of `BM_BoxFilter_opencv_aarch64` (lines 179-205), in source order.  The
whole block sits under `#ifdef PPLCV_BENCHMARK_OPENCV`; the argument tells whether that
symbol is defined. -/
def registeredOpencv (PPLCV_BENCHMARK_OPENCV : Bool) : List Registration :=
  if PPLCV_BENCHMARK_OPENCV then
    RUN_OPENCV_TYPE_FUNCTIONS .uint8_t 3 3 .BORDER_REPLICATE ++
    RUN_OPENCV_TYPE_FUNCTIONS .uint8_t 3 3 .BORDER_REFLECT ++
    RUN_OPENCV_TYPE_FUNCTIONS .uint8_t 3 3 .BORDER_REFLECT_101 ++
    RUN_OPENCV_TYPE_FUNCTIONS .float 3 3 .BORDER_REPLICATE ++
    RUN_OPENCV_TYPE_FUNCTIONS .float 3 3 .BORDER_REFLECT ++
    RUN_OPENCV_TYPE_FUNCTIONS .float 3 3 .BORDER_REFLECT_101 ++
    RUN_OPENCV_TYPE_FUNCTIONS .uint8_t 5 5 .BORDER_REPLICATE ++
    RUN_OPENCV_TYPE_FUNCTIONS .uint8_t 5 5 .BORDER_REFLECT ++
    RUN_OPENCV_TYPE_FUNCTIONS .uint8_t 5 5 .BORDER_REFLECT_101 ++
    RUN_OPENCV_TYPE_FUNCTIONS .float 5 5 .BORDER_REPLICATE ++
    RUN_OPENCV_TYPE_FUNCTIONS .float 5 5 .BORDER_REFLECT ++
    RUN_OPENCV_TYPE_FUNCTIONS .float 5 5 .BORDER_REFLECT_101 ++
    RUN_OPENCV_TYPE_FUNCTIONS .uint8_t 25 25 .BORDER_REPLICATE ++
    RUN_OPENCV_TYPE_FUNCTIONS .uint8_t 25 25 .BORDER_REFLECT ++
    RUN_OPENCV_TYPE_FUNCTIONS .uint8_t 25 25 .BORDER_REFLECT_101 ++
    RUN_OPENCV_TYPE_FUNCTIONS .float 25 25 .BORDER_REPLICATE ++
    RUN_OPENCV_TYPE_FUNCTIONS .float 25 25 .BORDER_REFLECT ++
    RUN_OPENCV_TYPE_FUNCTIONS .float 25 25 .BORDER_REFLECT_101 ++
    RUN_OPENCV_TYPE_FUNCTIONS .uint8_t 43 43 .BORDER_REPLICATE ++
    RUN_OPENCV_TYPE_FUNCTIONS .uint8_t 43 43 .BORDER_REFLECT ++
    RUN_OPENCV_TYPE_FUNCTIONS .uint8_t 43 43 .BORDER_REFLECT_101 ++
    RUN_OPENCV_TYPE_FUNCTIONS .float 43 43 .BORDER_REPLICATE ++
    RUN_OPENCV_TYPE_FUNCTIONS .float 43 43 .BORDER_REFLECT ++
    RUN_OPENCV_TYPE_FUNCTIONS .float 43 43 .BORDER_REFLECT_101
  else []

/-- The part of `benchmark::State` the benchmark bodies read: the registered `Args`
(`state.range(i)`), and, for each pass of `for (auto _ : state)`, the whole microseconds
the clock measures around the inner loop of that pass. -/
structure State where
  args : List Int
  elapsed : List Int

/-- Argument `state.range(i)`, a 64-bit integer. -/
def State.range (state : State) (i : Nat) : Int := state.args.getD i 0

/-- Conversion of a 64-bit integer to the 32-bit `int` it initialises (two's complement
wrap-around), as in `int width = state.range(0)`. -/
def toInt32 (x : Int) : Int := (x + 2147483648) % 4294967296 - 2147483648

/-- Number of passes `state.iterations()` of the timed loop. -/
def State.iterations (state : State) : Nat := state.elapsed.length

/-- The fields of `cv::Mat` the benchmark reads: `rows`, `cols` and the row step in
bytes. -/
structure Mat where
  rows : Int
  cols : Int
  step : Nat
  deriving DecidableEq, Repr

/-- Modelled from the spec: `createSourceImage(rows, cols, type)` of
`utility/infrastructure.hpp`, which is not in the sources: it allocates a `rows × cols`
matrix "with the documented stride convention".  The row step OpenCV chooses is taken as
an argument. -/
def createSourceImage (rows cols : Int) (step : Nat) : Mat := ⟨rows, cols, step⟩

/-- Arguments of one call `ppl::cv::arm::BoxFilter<T, channels>(...)`, in call order. -/
structure BoxFilterCall where
  type : ElemType
  channels : Nat
  height : Int
  width : Int
  inWidthStride : Nat
  ksize_x : Int
  ksize_y : Int
  normalize : Bool
  outWidthStride : Nat
  border_type : BorderType
  deriving DecidableEq, Repr

/-- One observable step of a benchmark body, in program order. -/
inductive Event (Call : Type) where
  | call (c : Call)
  | clockNow
  | setIterationTime (seconds : F64)
  | setItemsProcessed (items : Nat)

/-- What a benchmark body does that can be observed: the trace of its calls of the filter
under test, its reads of `std::chrono::high_resolution_clock::now()`, and the values it
hands to `state.SetIterationTime` and `state.SetItemsProcessed`. -/
structure BenchRun (Call : Type) where
  events : List (Event Call)

/-- The calls of the filter under test a run makes, in order. -/
def BenchRun.calls {Call : Type} (run : BenchRun Call) : List Call :=
  run.events.filterMap fun e =>
    match e with
    | .call c => some c
    | _ => none

/-- The values a run hands to `state.SetIterationTime`, in order. -/
def BenchRun.iterationTimes {Call : Type} (run : BenchRun Call) : List F64 :=
  run.events.filterMap fun e =>
    match e with
    | .setIterationTime seconds => some seconds
    | _ => none

/-- A loop `for (int i = 0; i < iters; i++) { call }` appending one call per pass to the
trace of calls. -/
def callLoop {Call : Type} (iters : Nat) (call : Call) (trace : List Call) : List Call :=
  (List.range iters).foldl (fun t _ => t ++ [call]) trace

/-- Body of `BM_BoxFilter_ppl_aarch64<T, channels, ksize_x, ksize_y, border_type>`
(lines 30-78).  `srcStep` and `dstStep` are the row steps of the two matrices.  One pass of
`for (auto _ : state)` reads the clock, runs the inner loop, reads the clock again and
reports `overall_time * 1.0 / perf_iters * 1e-6`, computed in `double`: the conversion of
`overall_time`, the product with `1.0`, the quotient by `perf_iters` (50, exact as a
`double`) and the product with the literal `1e-6` are each rounded to binary64. -/
def BM_BoxFilter_ppl_aarch64 (T : ElemType) (channels : Nat) (ksize_x ksize_y : Int)
    (border_type : BorderType) (state : State) (srcStep dstStep : Nat) :
    BenchRun BoxFilterCall :=
  let width := toInt32 (state.range 0)
  let height := toInt32 (state.range 1)
  let src := createSourceImage height width srcStep
  let dst : Mat := ⟨height, width, dstStep⟩
  let normalize := true
  let warmup_iters := 5
  let perf_iters := 50
  let call : BoxFilterCall :=
    ⟨T, channels, src.rows, src.cols, src.step / sizeofT T, ksize_x, ksize_y, normalize,
      dst.step / sizeofT T, border_type⟩
  let warm := callLoop warmup_iters (Event.call call) []
  let timed := state.elapsed.foldl
    (fun (trace : List (Event BoxFilterCall)) (overall_time : Int) =>
      let started := trace ++ [Event.clockNow]
      let ran := callLoop perf_iters (Event.call call) started
      let ended := ran ++ [Event.clockNow]
      let time : F64 :=
        fdiv64 (fmul64 (roundF64 (overall_time : ℚ)) (roundF64 1.0)) ((perf_iters : Nat) : ℚ)
      ended ++ [Event.setIterationTime (fmul64 time (roundF64 1e-6))])
    warm
  ⟨timed ++ [Event.setItemsProcessed (state.iterations * 1)]⟩

/-- Border types `cv::BorderTypes` of OpenCV that the reference benchmark can select. -/
inductive CvBorderTypes where
  | BORDER_REPLICATE
  | BORDER_REFLECT
  | BORDER_REFLECT_101
  deriving DecidableEq, Repr

/-- OpenCV's `cv::BORDER_DEFAULT`, an alias of `cv::BORDER_REFLECT_101`. -/
def CvBorderTypes.BORDER_DEFAULT : CvBorderTypes := .BORDER_REFLECT_101

/-- The ppl.cv border type that carries the same name as an OpenCV border type. -/
def CvBorderTypes.sameNamed : CvBorderTypes → BorderType
  | .BORDER_REPLICATE => .BORDER_REPLICATE
  | .BORDER_REFLECT => .BORDER_REFLECT
  | .BORDER_REFLECT_101 => .BORDER_REFLECT_101

/-- Arguments of one call `cv::boxFilter(src, dst, ddepth, ksize, anchor, normalize,
borderType)`; `ksize` and `anchor` are (width, height) and (x, y) pairs. -/
structure CvBoxFilterCall where
  type : ElemType
  channels : Nat
  src : Mat
  dst : Mat
  ksize : Int × Int
  anchor : Int × Int
  normalize : Bool
  borderType : CvBorderTypes
  deriving DecidableEq, Repr

/-- Body of `BM_BoxFilter_opencv_aarch64<T, channels, ksize_x, ksize_y, border_type>`
(lines 123-163).  The template argument `ksize_y` is accepted and never read: the kernel
is `cv::Size(ksize_x, ksize_x)`. -/
def BM_BoxFilter_opencv_aarch64 (T : ElemType) (channels : Nat) (ksize_x _ksize_y : Int)
    (border_type : BorderType) (state : State) (srcStep dstStep : Nat) :
    BenchRun CvBoxFilterCall :=
  let width := toInt32 (state.range 0)
  let height := toInt32 (state.range 1)
  let src := createSourceImage height width srcStep
  let dst : Mat := ⟨height, width, dstStep⟩
  let border : CvBorderTypes :=
    if border_type = .BORDER_REPLICATE then .BORDER_REPLICATE
    else if border_type = .BORDER_REFLECT then .BORDER_REFLECT
    else if border_type = .BORDER_REFLECT_101 then .BORDER_REFLECT_101
    else CvBorderTypes.BORDER_DEFAULT
  let normalize := true
  let warmup_iters := 5
  let perf_iters := 50
  let call : CvBoxFilterCall :=
    ⟨T, channels, src, dst, (ksize_x, ksize_x), (-1, -1), normalize, border⟩
  let warm := callLoop warmup_iters (Event.call call) []
  let timed := state.elapsed.foldl
    (fun (trace : List (Event CvBoxFilterCall)) (overall_time : Int) =>
      let started := trace ++ [Event.clockNow]
      let ran := callLoop perf_iters (Event.call call) started
      let ended := ran ++ [Event.clockNow]
      let time : F64 :=
        fdiv64 (fmul64 (roundF64 (overall_time : ℚ)) (roundF64 1.0)) ((perf_iters : Nat) : ℚ)
      ended ++ [Event.setIterationTime (fmul64 time (roundF64 1e-6))])
    warm
  ⟨timed ++ [Event.setItemsProcessed (state.iterations * 1)]⟩

/-- The benchmark framework running one registration of the ppl.cv benchmark: the state
carries the registered `Args`. -/
def runPpl (reg : Registration) (elapsed : List Int) (srcStep dstStep : Nat) :
    BenchRun BoxFilterCall :=
  BM_BoxFilter_ppl_aarch64 reg.type reg.channels reg.ksize_x reg.ksize_y reg.border_type
    ⟨reg.args, elapsed⟩ srcStep dstStep

/-- The benchmark framework running one registration of the OpenCV benchmark. -/
def runOpencv (reg : Registration) (elapsed : List Int) (srcStep dstStep : Nat) :
    BenchRun CvBoxFilterCall :=
  BM_BoxFilter_opencv_aarch64 reg.type reg.channels reg.ksize_x reg.ksize_y reg.border_type
    ⟨reg.args, elapsed⟩ srcStep dstStep

/-! ## Auxiliary lemmas -/

/-- A coordinate inside the range is returned as it is. -/
theorem mirrorLoop_of_valid (fuel : Nat) (coord limit delta : Int)
    (h : 0 ≤ coord ∧ coord < limit) : mirrorLoop fuel coord limit delta = coord := by
  cases fuel with
  | zero => rfl
  | succ n => simp [mirrorLoop, h]

/-- With enough mirrorings allowed, the loop ends inside the range: every mirroring
reduces the distance from the range by at least `limit - delta ≥ 1`. -/
theorem mirrorLoop_valid (delta limit : Int) (hd0 : 0 ≤ delta) (hd1 : delta ≤ 1)
    (hl : 1 + delta ≤ limit) :
    ∀ (fuel : Nat) (coord : Int), (coord < 0 → -coord ≤ fuel) →
      (limit ≤ coord → coord - limit + 1 ≤ fuel) →
      0 ≤ mirrorLoop fuel coord limit delta ∧ mirrorLoop fuel coord limit delta < limit := by
  intro fuel
  induction fuel with
  | zero =>
    intro coord h1 h2
    simp only [mirrorLoop]
    constructor <;> omega
  | succ n ih =>
    intro coord h1 h2
    simp only [mirrorLoop]
    split
    · assumption
    · rename_i hnot
      apply ih
      · intro hneg
        unfold mirror at hneg ⊢
        split at hneg <;> split <;> push_cast at * <;> omega
      · intro hge
        unfold mirror at hge ⊢
        split at hge <;> split <;> push_cast at * <;> omega

/-- The extrapolated coordinate is valid for `limit ≥ 1` (`limit ≥ 2` for `REFLECT_101`). -/
theorem extrapolate_valid (coord limit : Int) (mode : BorderType) (hl : 1 ≤ limit)
    (h101 : mode = .BORDER_REFLECT_101 → 2 ≤ limit) :
    0 ≤ extrapolate coord limit mode ∧ extrapolate coord limit mode < limit := by
  cases mode
  · simp only [extrapolate]; split; omega; split <;> omega
  · simp only [extrapolate]
    apply mirrorLoop_valid 0 limit (by omega) (by omega) (by omega) <;> omega
  · simp only [extrapolate]
    have := h101 rfl
    apply mirrorLoop_valid 1 limit (by omega) (by omega) (by omega) <;> omega

/-- Adding modulo `2^32` step by step equals reducing the whole sum once. -/
theorem foldl_add_mod (l : List Nat) (s : Nat) :
    l.foldl (fun sum x => (sum + x) % U32) (s % U32) = (s + l.sum) % U32 := by
  induction l generalizing s with
  | nil => simp
  | cons a t ih =>
    simp only [List.foldl_cons, List.sum_cons]
    rw [Nat.mod_add_mod, ih]
    congr 1; omega

/-- The 32-bit accumulation of a list is its sum modulo `2^32`. -/
theorem accumulateU32_eq (samples : List Nat) : accumulateU32 samples = samples.sum % U32 := by
  have h := foldl_add_mod samples 0
  simpa [accumulateU32] using h

/-- Sum of a mapped range as a finite sum. -/
theorem sum_map_range (g : Nat → Nat) (n : Nat) :
    ((List.range n).map g).sum = ∑ i in Finset.range n, g i := by
  induction n with
  | zero => simp
  | succ n ih => simp [List.range_succ, Finset.sum_range_succ, ih]

/-- The cold-start sum is the direct sum at position 0 modulo `2^32`. -/
theorem seedSum_eq (f : Int → Nat) (limit : Int) (before after : Nat) (mode : BorderType) :
    seedSum f limit before after mode = directSum f limit before after mode 0 % U32 := by
  unfold seedSum directSum
  rw [accumulateU32_eq, sum_map_range]
  simp

/-- The incremental sliding window equals the direct sum modulo `2^32` at every position. -/
theorem slidingSum_eq (f : Int → Nat) (limit : Int) (before after : Nat) (mode : BorderType)
    (c : Nat) :
    slidingSum f limit before after mode c = directSum f limit before after mode c % U32 := by
  induction c with
  | zero => exact seedSum_eq f limit before after mode
  | succ c ih =>
    simp only [slidingSum, ih, slideStep]
    have key : directSum f limit before after mode (c + 1)
        + f (extrapolate ((c : Int) + ((0 : Nat) : Int) - (before : Int)) limit mode)
        = directSum f limit before after mode c
        + f (extrapolate ((c : Int) + ((before + after + 1 : Nat) : Int) - (before : Int)) limit mode) := by
      unfold directSum
      rw [← Finset.sum_range_succ
        (fun i => f (extrapolate ((c : Int) + (i : Int) - (before : Int)) limit mode)),
        Finset.sum_range_succ'
        (fun i => f (extrapolate ((c : Int) + (i : Int) - (before : Int)) limit mode))]
      congr 1
      apply Finset.sum_congr rfl
      intro i _
      congr 2
      push_cast
      ring
    have e1 : ((c + 1 : Nat) : Int) + (after : Int)
        = (c : Int) + ((before + after + 1 : Nat) : Int) - (before : Int) := by
      push_cast; ring
    have e2 : ((c + 1 : Nat) : Int) - (before : Int) - 1
        = (c : Int) + ((0 : Nat) : Int) - (before : Int) := by
      push_cast; ring
    rw [e1, e2]
    generalize f (extrapolate ((c : Int) + ((before + after + 1 : Nat) : Int) - (before : Int)) limit mode) = a at key ⊢
    generalize f (extrapolate ((c : Int) + ((0 : Nat) : Int) - (before : Int)) limit mode) = b at key ⊢
    generalize directSum f limit before after mode (c + 1) = T at key ⊢
    generalize directSum f limit before after mode c = S at key ⊢
    unfold U32
    omega

/-- The two half-widths and the anchor make up the kernel extent. -/
theorem kernel_extent (k : Nat) (hk : 1 ≤ k) : kernelBefore k + kernelAfter k + 1 = k := by
  unfold kernelAfter kernelBefore; omega

/-- Entry `c*channels + ch` of the Horizontal Accumulator output. -/
theorem getD_hAccumulate (row : List Nat) (width channels before after : Nat)
    (mode : BorderType) (c ch : Nat) (hc : c < width) (hch : ch < channels) :
    (hAccumulate row width channels before after mode).getD (c * channels + ch) 0
      = slidingSum (rowSample row channels ch) (width : Int) before after mode c := by
  have hlt : c * channels + ch < width * channels := by
    calc c * channels + ch < c * channels + channels := by omega
      _ = (c + 1) * channels := by ring
      _ ≤ width * channels := Nat.mul_le_mul_right _ hc
  have hmod : (c * channels + ch) % channels = ch := by
    rw [Nat.mul_comm, Nat.mul_add_mod, Nat.mod_eq_of_lt hch]
  have hdiv : (c * channels + ch) / channels = c := by
    rw [Nat.mul_comm, Nat.mul_add_div (by omega), Nat.div_eq_of_lt hch, Nat.add_zero]
  simp [hAccumulate, List.getD_eq_getElem?_getD, hlt, hmod, hdiv]

/-- The validation, as a proposition. -/
theorem validArguments_iff (channels : Nat) (height width srcStride : Int) (kx ky : Int)
    (dstStride : Int) (mode : BorderType) :
    validArguments channels height width srcStride kx ky dstStride mode = true ↔
      1 ≤ kx ∧ 1 ≤ ky ∧ width * channels ≤ srcStride ∧ width * channels ≤ dstStride ∧
      (mode = .BORDER_REFLECT_101 → (kx > 1 → 2 ≤ width) ∧ (ky > 1 → 2 ≤ height)) := by
  unfold validArguments
  cases mode <;> simp [and_assoc]
  intro _ _ _ _
  omega

/-- A bound on all elements bounds every (defaulted) read. -/
theorem getD_le_of_forall (l : List Nat) (b : Nat) (h : ∀ x ∈ l, x ≤ b) (i : Nat) :
    l.getD i 0 ≤ b := by
  rw [List.getD_eq_getElem?_getD]
  by_cases hi : i < l.length
  · simp [hi]; exact h _ (List.getElem_mem _)
  · simp [List.getElem?_eq_none (by omega : l.length ≤ i)]

/-- A direct sum of bounded samples is bounded by the bound times the kernel extent. -/
theorem directSum_le (f : Int → Nat) (limit : Int) (before after : Nat) (mode : BorderType)
    (c b : Nat) (hf : ∀ x, f x ≤ b) :
    directSum f limit before after mode c ≤ b * (before + after + 1) := by
  unfold directSum
  have h := Finset.sum_le_card_nsmul (Finset.range (before + after + 1))
    (fun i => f (extrapolate ((c : Int) + (i : Int) - (before : Int)) limit mode)) b
    (fun i _ => hf _)
  simpa [Nat.mul_comm] using h

/-- A list of bounded samples has a bounded sum. -/
theorem list_sum_le (l : List Nat) (b : Nat) (h : ∀ x ∈ l, x ≤ b) : l.sum ≤ b * l.length := by
  induction l with
  | nil => simp
  | cons a t ih =>
    have ha : a ≤ b := h a (List.mem_cons_self _ _)
    have ht := ih (fun x hx => h x (List.mem_cons_of_mem _ hx))
    simp only [List.sum_cons, List.length_cons, Nat.mul_add, Nat.mul_one]
    omega

/-- A call loop appends `iters` copies of the call. -/
theorem callLoop_eq {Call : Type} (iters : Nat) (call : Call) (trace : List Call) :
    callLoop iters call trace = trace ++ List.replicate iters call := by
  unfold callLoop
  induction iters with
  | zero => simp
  | succ n ih =>
    rw [List.range_succ, List.foldl_append, ih]
    simp [List.replicate_succ', List.append_assoc]

/-- The timed loop appends, per pass, a clock read, `perf_iters` calls, a clock read and the
report of one iteration time. -/
theorem timedLoop_eq {Call : Type} (call : Call) (perf_iters : Nat) (g : Int → F64)
    (elapsed : List Int) (trace : List (Event Call)) :
    elapsed.foldl (fun (trace : List (Event Call)) (overall_time : Int) =>
        callLoop perf_iters (Event.call call) (trace ++ [Event.clockNow]) ++ [Event.clockNow]
          ++ [Event.setIterationTime (g overall_time)]) trace
      = trace ++ elapsed.flatMap (fun (m : Int) =>
          [Event.clockNow] ++ List.replicate perf_iters (Event.call call)
            ++ [Event.clockNow, Event.setIterationTime (g m)]) := by
  induction elapsed generalizing trace with
  | nil => simp
  | cons m t ih =>
    rw [List.foldl_cons, ih, callLoop_eq, List.flatMap_cons]
    simp only [List.append_assoc, List.singleton_append, List.cons_append, List.nil_append]

/-- The calls of a trace made of warm-up calls and timed passes. -/
theorem traceCalls_eq {Call : Type} (call : Call) (warm perf_iters items : Nat)
    (g : Int → F64) (elapsed : List Int) :
    (BenchRun.mk (List.replicate warm (Event.call call) ++ elapsed.flatMap (fun (m : Int) =>
        [Event.clockNow] ++ List.replicate perf_iters (Event.call call)
          ++ [Event.clockNow, Event.setIterationTime (g m)])
        ++ [Event.setItemsProcessed items])).calls
      = List.replicate (warm + perf_iters * elapsed.length) call := by
  unfold BenchRun.calls
  simp only [List.filterMap_append, List.filterMap_replicate, List.filterMap_cons,
    List.filterMap_nil, List.append_nil]
  rw [List.replicate_add]
  congr 1
  induction elapsed with
  | nil => simp
  | cons m t ih =>
    rw [List.flatMap_cons, List.filterMap_append, ih]
    simp only [List.filterMap_append, List.filterMap_replicate, List.filterMap_cons,
      List.filterMap_nil, List.append_nil, List.nil_append, List.length_cons, Nat.mul_succ]
    rw [Nat.add_comm, List.replicate_add]

/-- The reported times of a trace made of warm-up calls and timed passes. -/
theorem traceTimes_eq {Call : Type} (call : Call) (warm perf_iters items : Nat)
    (g : Int → F64) (elapsed : List Int) :
    (BenchRun.mk (List.replicate warm (Event.call call) ++ elapsed.flatMap (fun (m : Int) =>
        [Event.clockNow] ++ List.replicate perf_iters (Event.call call)
          ++ [Event.clockNow, Event.setIterationTime (g m)])
        ++ [Event.setItemsProcessed items])).iterationTimes
      = elapsed.map g := by
  unfold BenchRun.iterationTimes
  simp only [List.filterMap_append, List.filterMap_replicate, List.filterMap_cons,
    List.filterMap_nil, List.append_nil]
  induction elapsed with
  | nil => simp
  | cons m t ih =>
    rw [List.flatMap_cons, List.filterMap_append, List.map_cons]
    simp only [List.filterMap_append, List.filterMap_replicate, List.filterMap_cons,
      List.filterMap_nil, List.append_nil, List.nil_append] at ih ⊢
    simpa using ih

/-- The whole trace of the ppl.cv benchmark body: five warm-up calls, then per timed pass a
clock read, fifty calls, a clock read and the report of the iteration time. -/
theorem ppl_events_eq (T : ElemType) (channels : Nat) (ksize_x ksize_y : Int)
    (border_type : BorderType) (state : State) (srcStep dstStep : Nat) :
    BM_BoxFilter_ppl_aarch64 T channels ksize_x ksize_y border_type state srcStep dstStep
      = ⟨List.replicate 5 (Event.call
            ⟨T, channels, toInt32 (state.range 1), toInt32 (state.range 0),
              srcStep / sizeofT T, ksize_x, ksize_y, true, dstStep / sizeofT T, border_type⟩)
          ++ state.elapsed.flatMap (fun (m : Int) =>
            [Event.clockNow] ++ List.replicate 50 (Event.call
              ⟨T, channels, toInt32 (state.range 1), toInt32 (state.range 0),
                srcStep / sizeofT T, ksize_x, ksize_y, true, dstStep / sizeofT T,
                border_type⟩)
            ++ [Event.clockNow, Event.setIterationTime
              (fmul64 (fdiv64 (fmul64 (roundF64 (m : ℚ)) (roundF64 1.0)) ((50 : Nat) : ℚ))
                (roundF64 1e-6))])
          ++ [Event.setItemsProcessed state.iterations]⟩ := by
  unfold BM_BoxFilter_ppl_aarch64
  simp only [timedLoop_eq, createSourceImage, Nat.mul_one]
  rw [callLoop_eq, List.nil_append]

/-- Trace of engine calls of the ppl.cv benchmark body. -/
theorem ppl_calls_eq (T : ElemType) (channels : Nat) (ksize_x ksize_y : Int)
    (border_type : BorderType) (state : State) (srcStep dstStep : Nat) :
    (BM_BoxFilter_ppl_aarch64 T channels ksize_x ksize_y border_type state srcStep dstStep).calls
      = List.replicate (5 + 50 * state.iterations)
          ⟨T, channels, toInt32 (state.range 1), toInt32 (state.range 0), srcStep / sizeofT T,
            ksize_x, ksize_y, true, dstStep / sizeofT T, border_type⟩ := by
  rw [ppl_events_eq, traceCalls_eq]
  rfl

/-- The whole trace of the OpenCV benchmark body. -/
theorem opencv_events_eq (T : ElemType) (channels : Nat) (ksize_x ksize_y : Int)
    (border_type : BorderType) (state : State) (srcStep dstStep : Nat) :
    BM_BoxFilter_opencv_aarch64 T channels ksize_x ksize_y border_type state srcStep dstStep
      = ⟨List.replicate 5 (Event.call
            ⟨T, channels, ⟨toInt32 (state.range 1), toInt32 (state.range 0), srcStep⟩,
              ⟨toInt32 (state.range 1), toInt32 (state.range 0), dstStep⟩, (ksize_x, ksize_x),
              (-1, -1), true,
              match border_type with
              | .BORDER_REPLICATE => .BORDER_REPLICATE
              | .BORDER_REFLECT => .BORDER_REFLECT
              | .BORDER_REFLECT_101 => .BORDER_REFLECT_101⟩)
          ++ state.elapsed.flatMap (fun (m : Int) =>
            [Event.clockNow] ++ List.replicate 50 (Event.call
              ⟨T, channels, ⟨toInt32 (state.range 1), toInt32 (state.range 0), srcStep⟩,
                ⟨toInt32 (state.range 1), toInt32 (state.range 0), dstStep⟩,
                (ksize_x, ksize_x), (-1, -1), true,
                match border_type with
                | .BORDER_REPLICATE => .BORDER_REPLICATE
                | .BORDER_REFLECT => .BORDER_REFLECT
                | .BORDER_REFLECT_101 => .BORDER_REFLECT_101⟩)
            ++ [Event.clockNow, Event.setIterationTime
              (fmul64 (fdiv64 (fmul64 (roundF64 (m : ℚ)) (roundF64 1.0)) ((50 : Nat) : ℚ))
                (roundF64 1e-6))])
          ++ [Event.setItemsProcessed state.iterations]⟩ := by
  unfold BM_BoxFilter_opencv_aarch64
  simp only [timedLoop_eq, createSourceImage, Nat.mul_one]
  rw [callLoop_eq, List.nil_append]
  cases border_type <;> rfl

/-- Trace of `cv::boxFilter` calls of the OpenCV benchmark body. -/
theorem opencv_calls_eq (T : ElemType) (channels : Nat) (ksize_x ksize_y : Int)
    (border_type : BorderType) (state : State) (srcStep dstStep : Nat) :
    (BM_BoxFilter_opencv_aarch64 T channels ksize_x ksize_y border_type state srcStep
        dstStep).calls
      = List.replicate (5 + 50 * state.iterations)
          ⟨T, channels, ⟨toInt32 (state.range 1), toInt32 (state.range 0), srcStep⟩,
            ⟨toInt32 (state.range 1), toInt32 (state.range 0), dstStep⟩, (ksize_x, ksize_x),
            (-1, -1), true,
            match border_type with
            | .BORDER_REPLICATE => .BORDER_REPLICATE
            | .BORDER_REFLECT => .BORDER_REFLECT
            | .BORDER_REFLECT_101 => .BORDER_REFLECT_101⟩ := by
  rw [opencv_events_eq, traceCalls_eq]
  rfl

/-- What all registrations of the ppl.cv benchmark have in common. -/
theorem registeredPpl_spec : ∀ reg ∈ registeredPpl,
    reg.args = [640, 480] ∧ reg.iterations = 10 ∧ reg.useManualTime = true ∧
    (reg.channels = 1 ∨ reg.channels = 3 ∨ reg.channels = 4) ∧
    reg.ksize_x = reg.ksize_y ∧
    (reg.ksize_x = 3 ∨ reg.ksize_x = 5 ∨ reg.ksize_x = 25 ∨ reg.ksize_x = 43) := by
  decide

/-- With the OpenCV block compiled in, both benchmarks have the same registrations. -/
theorem registeredOpencv_eq : registeredOpencv true = registeredPpl := rfl

/-- The executable power of two is the power of two. -/
theorem pow2_eq (k : Int) : pow2 k = (2 : ℚ) ^ k := by
  unfold pow2
  split
  · rename_i h
    obtain ⟨n, rfl⟩ := Int.eq_ofNat_of_zero_le h
    simp
  · rename_i h
    obtain ⟨n, hn⟩ := Int.exists_eq_neg_ofNat (by omega : k ≤ 0)
    subst hn
    simp

/-- With enough halvings allowed, `log2Fuel` brackets its argument between two powers of two. -/
theorem log2Fuel_spec : ∀ (fuel n : Nat), n ≤ fuel → 1 ≤ n →
    2 ^ log2Fuel fuel n ≤ n ∧ n < 2 ^ (log2Fuel fuel n + 1) := by
  intro fuel
  induction fuel with
  | zero => intro n h1 h2; omega
  | succ f ih =>
    intro n h1 h2
    simp only [log2Fuel]
    split
    · rename_i h
      obtain ⟨ha, hb⟩ := ih (n / 2) (by omega) (by omega)
      rw [pow_succ, pow_succ]
      constructor <;> omega
    · simp; omega

/-- Bracket `2^k ≤ n < 2^(k+1)` for `k = natLog2 n`. -/
theorem natLog2_spec (n : Nat) (h : 1 ≤ n) :
    2 ^ natLog2 n ≤ n ∧ n < 2 ^ (natLog2 n + 1) :=
  log2Fuel_spec n n (le_refl n) h

/-- Bracket `2^e ≤ x < 2^(e+1)` for `e = ilog2 x`, `x` a positive rational. -/
theorem ilog2_spec (x : ℚ) (hx : 0 < x) :
    (2 : ℚ) ^ ilog2 x ≤ x ∧ x < (2 : ℚ) ^ (ilog2 x + 1) := by
  have hnum : 0 < x.num := Rat.num_pos.2 hx
  have hden : 0 < x.den := x.den_pos
  obtain ⟨pa, pb⟩ := natLog2_spec x.num.natAbs (by omega)
  obtain ⟨da, db⟩ := natLog2_spec x.den (by omega)
  have hxd : x * (x.den : ℚ) = (x.num.natAbs : ℚ) := by
    have h1 : ((x.num.natAbs : Nat) : ℚ) = (x.num : ℚ) := by
      have h0 : ((x.num.natAbs : Nat) : Int) = x.num := Int.natAbs_of_nonneg (le_of_lt hnum)
      rw [← Int.cast_natCast, h0]
    rw [h1]
    exact Rat.mul_den_eq_num x
  have hdq : (0 : ℚ) < (x.den : ℚ) := by exact_mod_cast hden
  have pa' : (2 : ℚ) ^ (natLog2 x.num.natAbs) ≤ (x.num.natAbs : ℚ) := by exact_mod_cast pa
  have pb' : (x.num.natAbs : ℚ) < (2 : ℚ) ^ (natLog2 x.num.natAbs + 1) := by exact_mod_cast pb
  have da' : (2 : ℚ) ^ (natLog2 x.den) ≤ (x.den : ℚ) := by exact_mod_cast da
  have db' : (x.den : ℚ) < (2 : ℚ) ^ (natLog2 x.den + 1) := by exact_mod_cast db
  set a := natLog2 x.num.natAbs with ha
  set b := natLog2 x.den with hb
  have h2a : (0 : ℚ) < 2 ^ a := by positivity
  have h2b : (0 : ℚ) < 2 ^ b := by positivity
  have ek : (2 : ℚ) ^ ((a : Int) - (b : Int)) = 2 ^ a / 2 ^ b := by
    rw [zpow_sub₀ (by norm_num), zpow_natCast, zpow_natCast]
  have ek1 : (2 : ℚ) ^ ((a : Int) - (b : Int) + 1) = 2 ^ (a + 1) / 2 ^ b := by
    rw [zpow_add₀ (by norm_num), ek, zpow_one, pow_succ]; ring
  have ek2 : (2 : ℚ) ^ ((a : Int) - (b : Int) - 1) = 2 ^ a / 2 ^ (b + 1) := by
    rw [zpow_sub₀ (by norm_num), ek, zpow_one, pow_succ]; field_simp
  unfold ilog2
  simp only [← ha, ← hb]
  split
  · rename_i h
    rw [pow2_eq] at h
    refine ⟨h, ?_⟩
    rw [ek1, lt_div_iff₀ h2b]
    calc x * 2 ^ b ≤ x * (x.den : ℚ) := by
          apply mul_le_mul_of_nonneg_left da' (le_of_lt hx)
      _ = (x.num.natAbs : ℚ) := hxd
      _ < 2 ^ (a + 1) := pb'
  · rename_i h
    rw [pow2_eq, not_le] at h
    constructor
    · rw [ek2, div_le_iff₀ (by positivity)]
      calc (2 : ℚ) ^ a ≤ (x.num.natAbs : ℚ) := pa'
        _ = x * (x.den : ℚ) := hxd.symm
        _ ≤ x * 2 ^ (b + 1) := by
          apply mul_le_mul_of_nonneg_left (le_of_lt db') (le_of_lt hx)
    · have : (a : Int) - (b : Int) - 1 + 1 = (a : Int) - (b : Int) := by ring
      rw [this]; exact h

/-- Rounding to the nearest integer moves a value by at most one half. -/
theorem roundHalfEven_error (y : ℚ) : |((roundHalfEven y : Int) : ℚ) - y| ≤ 1 / 2 := by
  have h1 : ((⌊y⌋ : Int) : ℚ) ≤ y := Int.floor_le y
  have h2 : y < ((⌊y⌋ : Int) : ℚ) + 1 := Int.lt_floor_add_one y
  unfold roundHalfEven
  simp only
  split
  · rw [abs_le]; constructor <;> linarith
  · split
    · push_cast; rw [abs_le]; constructor <;> linarith
    · split
      · rw [abs_le]; constructor <;> linarith
      · push_cast; rw [abs_le]; constructor <;> linarith

/-- Integers round to themselves. -/
theorem roundHalfEven_intCast (n : Int) : roundHalfEven (n : ℚ) = n := by
  unfold roundHalfEven
  simp

/-- In the normal range a rounding succeeds with relative error at most `2^-prec`. -/
theorem roundBinary_rel_error (prec : Nat) (emin emax : Int) (x : ℚ)
    (hlo : (2 : ℚ) ^ emin ≤ |x|) (hhi : |x| ≤ (2 : ℚ) ^ emax) (hp : 1 ≤ prec) :
    ∃ y, roundBinary prec emin emax x = some y ∧
      |y - x| ≤ (2 : ℚ) ^ (-(prec : Int)) * |x| := by
  have h2 : (1 : ℚ) < 2 := by norm_num
  have hpos : 0 < |x| := lt_of_lt_of_le (by positivity) hlo
  have hx0 : x ≠ 0 := abs_pos.1 hpos
  obtain ⟨he1, he2⟩ := ilog2_spec |x| hpos
  set e := ilog2 |x| with he
  have hemin : emin ≤ e := by
    have : (2 : ℚ) ^ emin < 2 ^ (e + 1) := lt_of_le_of_lt hlo he2
    have := (zpow_lt_zpow_iff_right₀ h2).1 this
    omega
  have hemax : e ≤ emax := by
    have : (2 : ℚ) ^ e ≤ 2 ^ emax := le_trans he1 hhi
    exact (zpow_le_zpow_iff_right₀ h2).1 this
  have hq : (0 : ℚ) < 2 ^ (e - ((prec : Int) - 1)) := by positivity
  have herr := roundHalfEven_error (x / 2 ^ (e - ((prec : Int) - 1)))
  set n := roundHalfEven (x / 2 ^ (e - ((prec : Int) - 1))) with hn
  have hhalf : (2 : ℚ) ^ (e - ((prec : Int) - 1)) * (1 / 2) = 2 ^ e * 2 ^ (-(prec : Int)) := by
    rw [← zpow_add₀ (by norm_num : (2 : ℚ) ≠ 0)]
    have : e - ((prec : Int) - 1) = e + -(prec : Int) + 1 := by ring
    rw [this, zpow_add₀ (by norm_num : (2 : ℚ) ≠ 0) _ 1, zpow_one]
    ring
  have hdiff : |(n : ℚ) * 2 ^ (e - ((prec : Int) - 1)) - x| ≤ 2 ^ e * 2 ^ (-(prec : Int)) := by
    have e1 : (n : ℚ) * 2 ^ (e - ((prec : Int) - 1)) - x
        = ((n : ℚ) - x / 2 ^ (e - ((prec : Int) - 1))) * 2 ^ (e - ((prec : Int) - 1)) := by
      field_simp
    rw [e1, abs_mul, abs_of_pos hq, ← hhalf, mul_comm]
    exact mul_le_mul_of_nonneg_left herr (le_of_lt hq)
  have hbound : |(n : ℚ) * 2 ^ (e - ((prec : Int) - 1)) - x| ≤ 2 ^ (-(prec : Int)) * |x| := by
    refine le_trans hdiff ?_
    rw [mul_comm]
    exact mul_le_mul_of_nonneg_left he1 (by positivity)
  refine ⟨(n : ℚ) * 2 ^ (e - ((prec : Int) - 1)), ?_, hbound⟩
  unfold roundBinary
  rw [if_neg hx0]
  simp only [← he, max_eq_left hemin, pow2_eq, ← hn]
  rw [if_pos]
  have hsmall : (2 : ℚ) ^ e * 2 ^ (-(prec : Int)) < 2 ^ emax := by
    rw [← zpow_add₀ (by norm_num : (2 : ℚ) ≠ 0)]
    apply (zpow_lt_zpow_iff_right₀ h2).2
    have : (1 : Int) ≤ (prec : Int) := by exact_mod_cast hp
    omega
  have habs : |(n : ℚ) * 2 ^ (e - ((prec : Int) - 1))|
      ≤ |x| + |(n : ℚ) * 2 ^ (e - ((prec : Int) - 1)) - x| := by
    have := abs_add x ((n : ℚ) * 2 ^ (e - ((prec : Int) - 1)) - x)
    simpa using this
  have h2e : (2 : ℚ) ^ (emax + 1) = 2 ^ emax + 2 ^ emax := by
    rw [zpow_add₀ (by norm_num : (2 : ℚ) ≠ 0), zpow_one]; ring
  rw [h2e]
  linarith

/-- A value `n * 2^k` with a significand of at most `prec` bits and an exponent in range
is representable: it rounds to itself. -/
theorem roundBinary_exact (prec : Nat) (emin emax : Int) (x : ℚ) (n k : Int)
    (hx : x = (n : ℚ) * (2 : ℚ) ^ k) (hn : |(n : ℚ)| < (2 : ℚ) ^ (prec : Int))
    (hk : emin - ((prec : Int) - 1) ≤ k) (hmax : |x| < (2 : ℚ) ^ (emax + 1)) :
    roundBinary prec emin emax x = some x := by
  have h2 : (1 : ℚ) < 2 := by norm_num
  have h20 : (2 : ℚ) ≠ 0 := by norm_num
  unfold roundBinary
  split
  · rename_i h0; rw [h0]
  · rename_i hx0
    have hpos : 0 < |x| := abs_pos.2 hx0
    obtain ⟨he1, _⟩ := ilog2_spec |x| hpos
    set e := ilog2 |x| with he
    have hek : e - ((prec : Int) - 1) ≤ k := by
      have h1 : |x| < 2 ^ ((prec : Int) + k) := by
        rw [hx, abs_mul, abs_of_pos (by positivity : (0 : ℚ) < 2 ^ k), zpow_add₀ h20]
        exact mul_lt_mul_of_pos_right hn (by positivity)
      have := (zpow_lt_zpow_iff_right₀ h2).1 (lt_of_le_of_lt he1 h1)
      omega
    have hqk : max e emin - ((prec : Int) - 1) ≤ k := by
      rcases le_total e emin with h | h
      · rw [max_eq_right h]; exact hk
      · rw [max_eq_left h]; exact hek
    obtain ⟨j, hj⟩ := Int.eq_ofNat_of_zero_le (by omega : 0 ≤ k - (max e emin - ((prec : Int) - 1)))
    have hdiv : x / 2 ^ (max e emin - ((prec : Int) - 1)) = ((n * 2 ^ j : Int) : ℚ) := by
      rw [hx, mul_div_assoc, ← zpow_sub₀ h20, hj, zpow_natCast]
      push_cast
      rfl
    simp only [pow2_eq]
    rw [hdiv, roundHalfEven_intCast]
    have hy : ((n * 2 ^ j : Int) : ℚ) * 2 ^ (max e emin - ((prec : Int) - 1)) = x := by
      rw [← hdiv]
      field_simp
    rw [hy, if_pos hmax]

/-- Relative errors compose along two successive approximations. -/
theorem rel_error_trans (x y z ε w : ℚ) (hw : 0 ≤ w)
    (h1 : |y - x| ≤ ε * |x|) (h2 : |z - y| ≤ w * |y|) :
    |z - x| ≤ (ε + w + ε * w) * |x| := by
  have hy : |y| ≤ |x| + ε * |x| := by
    have := abs_add x (y - x)
    have e : x + (y - x) = y := by ring
    rw [e] at this
    linarith
  have hz : |z - x| ≤ |z - y| + |y - x| := by
    have := abs_add (z - y) (y - x)
    have e : z - y + (y - x) = z - x := by ring
    rw [e] at this
    exact this
  have h3 : w * |y| ≤ w * (|x| + ε * |x|) := mul_le_mul_of_nonneg_left hy hw
  nlinarith [abs_nonneg x]

/-- Relative error of a product of two approximations. -/
theorem rel_error_mul (a a' b b' u v : ℚ) (hu : 0 ≤ u)
    (ha : |a' - a| ≤ u * |a|) (hb : |b' - b| ≤ v * |b|) :
    |a' * b' - a * b| ≤ (u + v + u * v) * |a * b| := by
  have e : a' * b' - a * b = (a' - a) * b + a * (b' - b) + (a' - a) * (b' - b) := by ring
  have h1 : |(a' - a) * b| ≤ u * |a| * |b| := by
    rw [abs_mul]; exact mul_le_mul_of_nonneg_right ha (abs_nonneg b)
  have h2 : |a * (b' - b)| ≤ |a| * (v * |b|) := by
    rw [abs_mul]; exact mul_le_mul_of_nonneg_left hb (abs_nonneg a)
  have h3 : |(a' - a) * (b' - b)| ≤ (u * |a|) * (v * |b|) := by
    rw [abs_mul]
    exact mul_le_mul ha hb (abs_nonneg _) (mul_nonneg hu (abs_nonneg a))
  have h4 := abs_add ((a' - a) * b + a * (b' - b)) ((a' - a) * (b' - b))
  have h5 := abs_add ((a' - a) * b) (a * (b' - b))
  rw [e, abs_mul]
  nlinarith [abs_nonneg a, abs_nonneg b]

/-- An approximation with a relative error of at most one half stays within a factor 2. -/
theorem rel_error_bounds (x y ε : ℚ) (h : |y - x| ≤ ε * |x|) (hε : ε ≤ 1 / 2) :
    |x| / 2 ≤ |y| ∧ |y| ≤ 2 * |x| := by
  have h1 := abs_add x (y - x)
  have e : x + (y - x) = y := by ring
  rw [e] at h1
  have h2 := abs_sub_abs_le_abs_sub x y
  rw [abs_sub_comm] at h2
  have h3 : ε * |x| ≤ 1 / 2 * |x| := mul_le_mul_of_nonneg_right hε (abs_nonneg x)
  constructor <;> linarith

/-- One binary64 rounding of a value of moderate size: relative error at most `2^-53`. -/
theorem roundF64_step (x : ℚ) (hlo : 1 / 2 ^ 100 ≤ |x|) (hhi : |x| ≤ 2 ^ 100) :
    ∃ y, roundF64 x = some y ∧ |y - x| ≤ 1 / 2 ^ 53 * |x| := by
  obtain ⟨y, hy, herr⟩ := roundBinary_rel_error 53 (-1022) 1023 x
    (le_trans (by norm_num) hlo) (le_trans hhi (by norm_num)) (by norm_num)
  have hu : (2 : ℚ) ^ (-((53 : Nat) : Int)) = 1 / 2 ^ 53 := by norm_num
  rw [hu] at herr
  exact ⟨y, hy, herr⟩

/-- The reported iteration time, five roundings away from `m / (50 * 10^6)`. -/
theorem iterationTime_bound (m : Int) (hm : |m| ≤ 2 ^ 63) :
    ∃ t : ℚ,
      fmul64 (fdiv64 (fmul64 (roundF64 (m : ℚ)) (roundF64 1.0)) ((50 : Nat) : ℚ))
        (roundF64 1e-6) = some t ∧
      |t - (m : ℚ) / (50 * 10 ^ 6)| ≤ 1 / 2 ^ 50 * |(m : ℚ) / (50 * 10 ^ 6)| := by
  have hone : roundF64 1.0 = some 1 := by decide!
  have hC : (1e-6 : ℚ) = 1 / 10 ^ 6 := by norm_num
  have h50 : ((50 : Nat) : ℚ) ≠ 0 := by norm_num
  obtain ⟨c, hc, hcerr⟩ := roundF64_step (1e-6 : ℚ)
    (by rw [hC]; norm_num [abs_of_pos]) (by rw [hC]; norm_num [abs_of_pos])
  rw [hC] at hcerr
  have hcabs : |c - 1 / 10 ^ 6| ≤ 1 / 2 ^ 53 * (1 / 10 ^ 6) := by
    rw [abs_of_pos (by norm_num : (0 : ℚ) < 1 / 10 ^ 6)] at hcerr; exact hcerr
  have hcb : 1 / 10 ^ 6 / 2 ≤ c ∧ c ≤ 2 * (1 / 10 ^ 6) := by
    have := abs_le.1 hcabs
    constructor <;> linarith [this.1, this.2]
  rw [hone, hc]
  by_cases h0 : m = 0
  · subst h0
    refine ⟨0, ?_, by simp⟩
    have hz : roundF64 0 = some 0 := by simp [roundF64, roundBinary]
    simp [fmul64, fdiv64, hz]
  · have hm1 : (1 : ℚ) ≤ |(m : ℚ)| := by
      have : (1 : Int) ≤ |m| := Int.one_le_abs h0
      exact_mod_cast this
    have hm2 : |(m : ℚ)| ≤ 2 ^ 63 := by
      have : ((|m| : Int) : ℚ) ≤ ((2 ^ 63 : Int) : ℚ) := by exact_mod_cast hm
      simpa using this
    -- conversion of the integer count to double
    obtain ⟨a, ha, haerr⟩ := roundF64_step (m : ℚ) (le_trans (by norm_num) hm1)
      (le_trans hm2 (by norm_num))
    have hab := rel_error_bounds _ _ _ haerr (by norm_num)
    -- product with 1.0
    obtain ⟨b, hb, hberr⟩ := roundF64_step (a * 1) (by rw [mul_one]; linarith [hab.1])
      (by rw [mul_one]; linarith [hab.2])
    rw [mul_one] at hberr
    have hbm := rel_error_trans (m : ℚ) a b _ (1 / 2 ^ 53) (by norm_num) haerr hberr
    have hbb := rel_error_bounds _ _ _ hbm (by norm_num)
    -- quotient by perf_iters
    have hq : |b / ((50 : Nat) : ℚ)| = |b| / 50 := by rw [abs_div]; norm_num
    obtain ⟨t1, ht1, ht1err⟩ := roundF64_step (b / ((50 : Nat) : ℚ))
      (by rw [hq]; linarith [hbb.1]) (by rw [hq]; linarith [hbb.2])
    have hbq : |b / ((50 : Nat) : ℚ) - (m : ℚ) / ((50 : Nat) : ℚ)|
        ≤ (1 / 2 ^ 53 + 1 / 2 ^ 53 + 1 / 2 ^ 53 * (1 / 2 ^ 53)) * |(m : ℚ) / ((50 : Nat) : ℚ)| := by
      rw [← sub_div, abs_div, abs_div, ← mul_div_assoc]
      exact div_le_div_of_nonneg_right hbm (abs_nonneg _)
    have ht1m := rel_error_trans _ _ t1 _ (1 / 2 ^ 53) (by norm_num) hbq ht1err
    have ht1b := rel_error_bounds _ _ _ ht1m (by norm_num)
    have hA : |(m : ℚ) / ((50 : Nat) : ℚ)| = |(m : ℚ)| / 50 := by rw [abs_div]; norm_num
    rw [hA] at ht1b
    -- product with the literal 1e-6
    have hcpos : 0 < c := by linarith [hcb.1]
    have hprod : |t1 * c| = |t1| * c := by rw [abs_mul, abs_of_pos hcpos]
    obtain ⟨t, ht, hterr⟩ := roundF64_step (t1 * c)
      (by rw [hprod]
          have h1 : (1 : ℚ) / 100 ≤ |t1| := by linarith [ht1b.1]
          calc (1 : ℚ) / 2 ^ 100 ≤ 1 / 100 * (1 / 10 ^ 6 / 2) := by norm_num
            _ ≤ |t1| * c := mul_le_mul h1 hcb.1 (by norm_num) (abs_nonneg _))
      (by rw [hprod]
          have h1 : |t1| ≤ 2 ^ 63 := by linarith [ht1b.2]
          have h2 : c ≤ 1 := by linarith [hcb.2]
          calc |t1| * c ≤ 2 ^ 63 * 1 := mul_le_mul h1 h2 (le_of_lt hcpos) (by norm_num)
            _ ≤ (2 : ℚ) ^ 100 := by norm_num)
    refine ⟨t, ?_, ?_⟩
    · simp only [fmul64, fdiv64, ha, hb, if_neg h50, ht1, ht]
    · have hmul := rel_error_mul ((m : ℚ) / ((50 : Nat) : ℚ)) t1 (1 / 10 ^ 6) c _
        (1 / 2 ^ 53) (by norm_num) ht1m hcerr
      have htot := rel_error_trans _ (t1 * c) t _ (1 / 2 ^ 53) (by norm_num) hmul hterr
      have e : (m : ℚ) / ((50 : Nat) : ℚ) * (1 / 10 ^ 6) = (m : ℚ) / (50 * 10 ^ 6) := by
        push_cast; ring
      rw [e] at htot
      refine le_trans htot ?_
      apply mul_le_mul_of_nonneg_right _ (abs_nonneg _)
      norm_num

/-- Two functions that agree on the elements of a list give the same `flatMap`. -/
theorem flatMap_congr_mem {α β : Type} (l : List α) (f g : α → List β)
    (h : ∀ a ∈ l, f a = g a) : l.flatMap f = l.flatMap g := by
  induction l with
  | nil => rfl
  | cons a t ih =>
    rw [List.flatMap_cons, List.flatMap_cons, h a (List.mem_cons_self _ _),
      ih (fun b hb => h b (List.mem_cons_of_mem _ hb))]

/-! ## Claims -/

/-- Claim C3, amended: for every border mode, every `limit ≥ 1` (`limit ≥ 2` for
`REFLECT_101`) and every integer `coord`, `extrapolate` returns `r` with
`0 ≤ r ≤ limit-1`; `REPLICATE` clamps `coord` to `[0, limit-1]`; `REFLECT` maps `-1` to `0`,
`limit` to `limit-1`, and `-2` to `1` when `limit ≥ 2`; `REFLECT_101` maps `-1` to `1`,
`limit` to `limit-2`, and `-2` to `2` when `limit ≥ 3`. -/
theorem extrapolate_contract (mode : BorderType) (limit coord : Int) (hl : 1 ≤ limit)
    (h101 : mode = .BORDER_REFLECT_101 → 2 ≤ limit) :
    (0 ≤ extrapolate coord limit mode ∧ extrapolate coord limit mode ≤ limit - 1) ∧
    (mode = .BORDER_REPLICATE → extrapolate coord limit mode = max 0 (min coord (limit - 1))) ∧
    (mode = .BORDER_REFLECT →
      extrapolate (-1) limit mode = 0 ∧ (2 ≤ limit → extrapolate (-2) limit mode = 1) ∧
      extrapolate limit limit mode = limit - 1) ∧
    (mode = .BORDER_REFLECT_101 →
      extrapolate (-1) limit mode = 1 ∧ (3 ≤ limit → extrapolate (-2) limit mode = 2) ∧
      extrapolate limit limit mode = limit - 2) := by
  obtain ⟨h0, h1⟩ := extrapolate_valid coord limit mode hl h101
  refine ⟨⟨h0, by omega⟩, ?_, ?_, ?_⟩
  · rintro rfl
    simp only [extrapolate]
    split
    · omega
    · split <;> omega
  · rintro rfl
    refine ⟨?_, ?_, ?_⟩
    · have e : (-1 : Int).natAbs + 1 = 1 + 1 := rfl
      simp only [extrapolate, e, mirrorLoop, mirror]
      rw [if_neg (by omega), if_pos (by omega), if_pos (by omega)]
      omega
    · intro h2
      have e : (-2 : Int).natAbs + 1 = 2 + 1 := rfl
      simp only [extrapolate, e, mirrorLoop, mirror]
      rw [if_neg (by omega), if_pos (by omega), if_pos (by omega)]
      omega
    · have hm : mirror limit limit 0 = limit - 1 := by
        unfold mirror; rw [if_neg (show ¬ limit < 0 by omega)]; omega
      simp only [extrapolate, mirrorLoop]
      rw [if_neg (show ¬ (0 ≤ limit ∧ limit < limit) by omega), hm]
      exact mirrorLoop_of_valid _ _ _ _ ⟨by omega, by omega⟩
  · rintro rfl
    have hl2 := h101 rfl
    refine ⟨?_, ?_, ?_⟩
    · have e : (-1 : Int).natAbs + 1 = 1 + 1 := rfl
      simp only [extrapolate, e, mirrorLoop, mirror]
      rw [if_neg (by omega), if_pos (by omega), if_pos (by omega)]
      omega
    · intro h3
      have e : (-2 : Int).natAbs + 1 = 2 + 1 := rfl
      simp only [extrapolate, e, mirrorLoop, mirror]
      rw [if_neg (by omega), if_pos (by omega), if_pos (by omega)]
      omega
    · have hm : mirror limit limit 1 = limit - 2 := by
        unfold mirror; rw [if_neg (show ¬ limit < 0 by omega)]; omega
      simp only [extrapolate, mirrorLoop]
      rw [if_neg (show ¬ (0 ≤ limit ∧ limit < limit) by omega), hm]
      exact mirrorLoop_of_valid _ _ _ _ ⟨by omega, by omega⟩

/-- Claim C3, witness: `REFLECT_101` with `limit = 3` at `coord = -2`. -/
theorem extrapolate_contract_witness :
    (0 ≤ extrapolate (-2) 3 .BORDER_REFLECT_101 ∧ extrapolate (-2) 3 .BORDER_REFLECT_101 ≤ 3 - 1) ∧
    (BorderType.BORDER_REFLECT_101 = .BORDER_REPLICATE →
      extrapolate (-2) 3 .BORDER_REFLECT_101 = max 0 (min (-2) (3 - 1))) ∧
    (BorderType.BORDER_REFLECT_101 = .BORDER_REFLECT →
      extrapolate (-1) 3 .BORDER_REFLECT_101 = 0 ∧
      (2 ≤ (3 : Int) → extrapolate (-2) 3 .BORDER_REFLECT_101 = 1) ∧
      extrapolate 3 3 .BORDER_REFLECT_101 = 3 - 1) ∧
    (BorderType.BORDER_REFLECT_101 = .BORDER_REFLECT_101 →
      extrapolate (-1) 3 .BORDER_REFLECT_101 = 1 ∧
      (3 ≤ (3 : Int) → extrapolate (-2) 3 .BORDER_REFLECT_101 = 2) ∧
      extrapolate 3 3 .BORDER_REFLECT_101 = 3 - 2) :=
  extrapolate_contract .BORDER_REFLECT_101 3 (-2) (by decide) (fun _ => by decide)

/-- Claim C3, counterexample: with `limit = 1` `REFLECT` maps `-2` to `0`, not to `1`, and with
`limit = 2` `REFLECT_101` maps `-2` to `0`, not to `2` (the values `1` and `2` would lie
outside `[0, limit-1]`). -/
theorem extrapolate_minus_two_small_limit :
    extrapolate (-2) 1 .BORDER_REFLECT = 0 ∧ extrapolate (-2) 1 .BORDER_REFLECT ≠ 1 ∧
    extrapolate (-2) 2 .BORDER_REFLECT_101 = 0 ∧ extrapolate (-2) 2 .BORDER_REFLECT_101 ≠ 2 := by
  decide

/-- Claim C4: the Horizontal Accumulator's incremental sliding window refines the direct
sum.  For every row, channel count, border mode, kernel width `kx ≥ 1` with
`before = kx/2`, `after = kx-1-before`, and every column `c < width` and channel `ch`, the
value the sliding window yields equals the direct sum over `j ∈ [-before, after]` of
`input[extrapolate(c+j, width, mode)][ch]` as a 32-bit unsigned integer (modulo `2^32`),
and equals that sum exactly for 8-bit samples and `kx < 2^24`. -/
theorem hAccumulate_sliding_eq_directSum (row : List Nat) (width channels kx : Nat) (mode : BorderType) (c ch : Nat)
    (hkx : 1 ≤ kx) (hc : c < width) (hch : ch < channels) :
    kernelBefore kx + kernelAfter kx + 1 = kx ∧
    (hAccumulate row width channels (kernelBefore kx) (kernelAfter kx) mode).getD
        (c * channels + ch) 0
      = directSum (rowSample row channels ch) (width : Int) (kernelBefore kx) (kernelAfter kx)
          mode c % U32 ∧
    ((∀ x ∈ row, x ≤ U8_MAX) → kx < 2 ^ 24 →
      (hAccumulate row width channels (kernelBefore kx) (kernelAfter kx) mode).getD
          (c * channels + ch) 0
        = directSum (rowSample row channels ch) (width : Int) (kernelBefore kx)
            (kernelAfter kx) mode c) := by
  have hk := kernel_extent kx hkx
  have hs := getD_hAccumulate row width channels (kernelBefore kx) (kernelAfter kx) mode c ch
    hc hch
  rw [slidingSum_eq] at hs
  refine ⟨hk, hs, ?_⟩
  intro hu8 hlt
  rw [hs]
  apply Nat.mod_eq_of_lt
  have hb := directSum_le (rowSample row channels ch) (width : Int) (kernelBefore kx)
    (kernelAfter kx) mode c U8_MAX (fun x => getD_le_of_forall row U8_MAX hu8 _)
  rw [hk] at hb
  unfold U8_MAX at hb
  unfold U32
  omega

/-- Claim C4, witness: a row of three two-channel pixels, even kernel width 4, `REFLECT`. -/
theorem hAccumulate_sliding_eq_directSum_witness :
    kernelBefore 4 + kernelAfter 4 + 1 = 4 ∧
    (hAccumulate [1, 2, 3, 4, 5, 6] 3 2 (kernelBefore 4) (kernelAfter 4) .BORDER_REFLECT).getD
        (2 * 2 + 1) 0
      = directSum (rowSample [1, 2, 3, 4, 5, 6] 2 1) ((3 : Nat) : Int) (kernelBefore 4)
          (kernelAfter 4) .BORDER_REFLECT 2 % U32 ∧
    ((∀ x ∈ [1, 2, 3, 4, 5, 6], x ≤ U8_MAX) → 4 < 2 ^ 24 →
      (hAccumulate [1, 2, 3, 4, 5, 6] 3 2 (kernelBefore 4) (kernelAfter 4) .BORDER_REFLECT).getD
          (2 * 2 + 1) 0
        = directSum (rowSample [1, 2, 3, 4, 5, 6] 2 1) ((3 : Nat) : Int) (kernelBefore 4)
            (kernelAfter 4) .BORDER_REFLECT 2) :=
  hAccumulate_sliding_eq_directSum [1, 2, 3, 4, 5, 6] 3 2 4 .BORDER_REFLECT 2 1 (by decide)
    (by decide) (by decide)

/-- Claim C6: every call the ppl.cv benchmark makes for a registered configuration passes
the engine validation.  Assuming the row steps of both matrices are multiples of
`sizeof(T)` and at least `width*channels*sizeof(T)`, each call passes height 480 and width
640 in that order, `kx ≥ 1`, `ky ≥ 1`, `width ≥ 2`, `height ≥ 2`, strides
`step/sizeof(T) ≥ width*channels`; the validation accepts the arguments and the engine
does not return `InvalidArgument`. -/
theorem benchmark_arguments_valid (reg : Registration) (hreg : reg ∈ registeredPpl) (elapsed : List Int)
    (srcStep dstStep : Nat)
    (hsrcMul : sizeofT reg.type ∣ srcStep)
    (hsrcMin : 640 * reg.channels * sizeofT reg.type ≤ srcStep)
    (hdstMul : sizeofT reg.type ∣ dstStep)
    (hdstMin : 640 * reg.channels * sizeofT reg.type ≤ dstStep) :
    (runPpl reg elapsed srcStep dstStep).calls.length = 5 + 50 * elapsed.length ∧
    ∀ call ∈ (runPpl reg elapsed srcStep dstStep).calls,
      call.height = 480 ∧ call.width = 640 ∧ 1 ≤ call.ksize_x ∧ 1 ≤ call.ksize_y ∧
      2 ≤ call.width ∧ 2 ≤ call.height ∧
      call.inWidthStride * sizeofT reg.type = srcStep ∧
      call.outWidthStride * sizeofT reg.type = dstStep ∧
      call.width * call.channels ≤ call.inWidthStride ∧
      call.width * call.channels ≤ call.outWidthStride ∧
      validArguments call.channels call.height call.width call.inWidthStride call.ksize_x
        call.ksize_y call.outWidthStride call.border_type = true ∧
      ∀ src dst, boxFilter call.channels call.height.toNat call.width.toNat call.inWidthStride
        src call.ksize_x call.ksize_y call.normalize call.outWidthStride dst call.border_type
          ≠ .error .InvalidArgument := by
  obtain ⟨hargs, _, _, _, hxy, hk⟩ := registeredPpl_spec reg hreg
  have hsz : 0 < sizeofT reg.type := by cases reg.type <;> decide
  have hs : 640 * reg.channels ≤ srcStep / sizeofT reg.type :=
    (Nat.le_div_iff_mul_le hsz).2 hsrcMin
  have hd : 640 * reg.channels ≤ dstStep / sizeofT reg.type :=
    (Nat.le_div_iff_mul_le hsz).2 hdstMin
  unfold runPpl
  rw [ppl_calls_eq]
  refine ⟨by simp [State.iterations], ?_⟩
  intro call hcall
  have hc := List.eq_of_mem_replicate hcall
  subst hc
  have hw : toInt32 (State.range ⟨reg.args, elapsed⟩ 0) = 640 := by
    simp [State.range, hargs, toInt32]
  have hh : toInt32 (State.range ⟨reg.args, elapsed⟩ 1) = 480 := by
    simp [State.range, hargs, toInt32]
  rw [hw, hh]
  have hk1 : 1 ≤ reg.ksize_x := by omega
  have hk2 : 1 ≤ reg.ksize_y := by omega
  have hs' : (640 : Int) * (reg.channels : Int) ≤ ((srcStep / sizeofT reg.type : Nat) : Int) := by
    exact_mod_cast hs
  have hd' : (640 : Int) * (reg.channels : Int) ≤ ((dstStep / sizeofT reg.type : Nat) : Int) := by
    exact_mod_cast hd
  have hvalid : validArguments reg.channels 480 640 ((srcStep / sizeofT reg.type : Nat) : Int)
      reg.ksize_x reg.ksize_y ((dstStep / sizeofT reg.type : Nat) : Int) reg.border_type
      = true := by
    rw [validArguments_iff]
    exact ⟨hk1, hk2, hs', hd', fun _ => ⟨fun _ => by omega, fun _ => by omega⟩⟩
  refine ⟨rfl, rfl, hk1, hk2, (by decide : (2 : Int) ≤ 640), (by decide : (2 : Int) ≤ 480),
    Nat.div_mul_cancel hsrcMul,
    Nat.div_mul_cancel hdstMul, hs', hd', hvalid, ?_⟩
  intro src dst
  have e1 : (((480 : Int).toNat : Nat) : Int) = 480 := rfl
  have e2 : (((640 : Int).toNat : Nat) : Int) = 640 := rfl
  unfold boxFilter
  rw [e1, e2, if_pos hvalid]
  intro h
  cases h

/-- Claim C6, witness: the registration `float, c3, 43, 43, BORDER_REFLECT_101` with
continuous matrices (row step `640 * 3 * 4` bytes) and one timed iteration. -/
theorem benchmark_arguments_valid_witness :
    (runPpl ⟨.float, 3, 43, 43, .BORDER_REFLECT_101, [640, 480], true, 10⟩ [100] 7680
        7680).calls.length = 5 + 50 * [(100 : Int)].length ∧
    ∀ call ∈ (runPpl ⟨.float, 3, 43, 43, .BORDER_REFLECT_101, [640, 480], true, 10⟩ [100] 7680
        7680).calls,
      call.height = 480 ∧ call.width = 640 ∧ 1 ≤ call.ksize_x ∧ 1 ≤ call.ksize_y ∧
      2 ≤ call.width ∧ 2 ≤ call.height ∧
      call.inWidthStride * sizeofT .float = 7680 ∧
      call.outWidthStride * sizeofT .float = 7680 ∧
      call.width * call.channels ≤ call.inWidthStride ∧
      call.width * call.channels ≤ call.outWidthStride ∧
      validArguments call.channels call.height call.width call.inWidthStride call.ksize_x
        call.ksize_y call.outWidthStride call.border_type = true ∧
      ∀ src dst, boxFilter call.channels call.height.toNat call.width.toNat call.inWidthStride
        src call.ksize_x call.ksize_y call.normalize call.outWidthStride dst call.border_type
          ≠ .error .InvalidArgument :=
  benchmark_arguments_valid ⟨.float, 3, 43, 43, .BORDER_REFLECT_101, [640, 480], true, 10⟩
    (by decide) [100] 7680 7680 (by decide) (by decide) (by decide) (by decide)

/-- Claim C7, amended: in every timed pass the benchmark reads the clock, makes exactly
`perf_iters = 50` calls of the filter, reads the clock again and hands to
`state.SetIterationTime` the `double` value of `overall_time * 1.0 / perf_iters * 1e-6`.
For a measured time of `m` whole microseconds (a 64-bit count) that value is finite and
equals `m / (50 * 10^6)` seconds, the elapsed time divided by the number of calls inside
the measurement, up to a relative rounding error of at most `2^-50`. -/
theorem benchmark_iteration_time (T : ElemType) (channels : Nat) (ksize_x ksize_y : Int)
    (border_type : BorderType) (state : State) (srcStep dstStep : Nat)
    (hm : ∀ m ∈ state.elapsed, |m| ≤ 2 ^ 63) :
    ∃ (call : BoxFilterCall) (seconds : Int → ℚ),
      (BM_BoxFilter_ppl_aarch64 T channels ksize_x ksize_y border_type state srcStep
          dstStep).events
        = List.replicate 5 (Event.call call)
          ++ state.elapsed.flatMap (fun (m : Int) =>
              [Event.clockNow] ++ List.replicate 50 (Event.call call)
                ++ [Event.clockNow, Event.setIterationTime (some (seconds m))])
          ++ [Event.setItemsProcessed state.iterations] ∧
      (BM_BoxFilter_ppl_aarch64 T channels ksize_x ksize_y border_type state srcStep
          dstStep).iterationTimes
        = state.elapsed.map (fun (m : Int) => some (seconds m)) ∧
      ∀ m ∈ state.elapsed,
        |seconds m - (m : ℚ) / (50 * 10 ^ 6)| ≤ 1 / 2 ^ 50 * |(m : ℚ) / (50 * 10 ^ 6)| := by
  have hsome : ∀ m ∈ state.elapsed,
      fmul64 (fdiv64 (fmul64 (roundF64 (m : ℚ)) (roundF64 1.0)) ((50 : Nat) : ℚ))
          (roundF64 1e-6)
        = some ((fmul64 (fdiv64 (fmul64 (roundF64 (m : ℚ)) (roundF64 1.0)) ((50 : Nat) : ℚ))
          (roundF64 1e-6)).getD 0) := by
    intro m hmem
    obtain ⟨t, ht, _⟩ := iterationTime_bound m (hm m hmem)
    rw [ht]; rfl
  have hev : (BM_BoxFilter_ppl_aarch64 T channels ksize_x ksize_y border_type state srcStep
      dstStep).events
      = List.replicate 5 (Event.call
          ⟨T, channels, toInt32 (state.range 1), toInt32 (state.range 0),
            srcStep / sizeofT T, ksize_x, ksize_y, true, dstStep / sizeofT T, border_type⟩)
        ++ state.elapsed.flatMap (fun (m : Int) =>
            [Event.clockNow] ++ List.replicate 50 (Event.call
              ⟨T, channels, toInt32 (state.range 1), toInt32 (state.range 0),
                srcStep / sizeofT T, ksize_x, ksize_y, true, dstStep / sizeofT T,
                border_type⟩)
              ++ [Event.clockNow, Event.setIterationTime (some
                ((fmul64 (fdiv64 (fmul64 (roundF64 (m : ℚ)) (roundF64 1.0)) ((50 : Nat) : ℚ))
                  (roundF64 1e-6)).getD 0))])
        ++ [Event.setItemsProcessed state.iterations] := by
    rw [ppl_events_eq]
    simp only
    congr 2
    apply flatMap_congr_mem
    intro m hmem
    rw [← hsome m hmem]
  refine ⟨_, _, hev, ?_, ?_⟩
  · have h := @traceTimes_eq BoxFilterCall
      ⟨T, channels, toInt32 (state.range 1), toInt32 (state.range 0),
        srcStep / sizeofT T, ksize_x, ksize_y, true, dstStep / sizeofT T, border_type⟩
      5 50 state.iterations
      (fun (m : Int) => some
        ((fmul64 (fdiv64 (fmul64 (roundF64 (m : ℚ)) (roundF64 1.0)) ((50 : Nat) : ℚ))
          (roundF64 1e-6)).getD 0))
      state.elapsed
    rw [← hev] at h
    exact h
  · intro m hmem
    obtain ⟨t, ht, hbound⟩ := iterationTime_bound m (hm m hmem)
    rw [ht]
    exact hbound

/-- Claim C7, witness: two timed passes of 100 and 250 microseconds. -/
theorem benchmark_iteration_time_witness :
    ∃ (call : BoxFilterCall) (seconds : Int → ℚ),
      (BM_BoxFilter_ppl_aarch64 .uint8_t 1 3 3 .BORDER_REPLICATE ⟨[640, 480], [100, 250]⟩ 640
          640).events
        = List.replicate 5 (Event.call call)
          ++ (State.mk [640, 480] [100, 250]).elapsed.flatMap (fun (m : Int) =>
              [Event.clockNow] ++ List.replicate 50 (Event.call call)
                ++ [Event.clockNow, Event.setIterationTime (some (seconds m))])
          ++ [Event.setItemsProcessed (State.mk [640, 480] [100, 250]).iterations] ∧
      (BM_BoxFilter_ppl_aarch64 .uint8_t 1 3 3 .BORDER_REPLICATE ⟨[640, 480], [100, 250]⟩ 640
          640).iterationTimes
        = (State.mk [640, 480] [100, 250]).elapsed.map (fun (m : Int) => some (seconds m)) ∧
      ∀ m ∈ (State.mk [640, 480] [100, 250]).elapsed,
        |seconds m - (m : ℚ) / (50 * 10 ^ 6)| ≤ 1 / 2 ^ 50 * |(m : ℚ) / (50 * 10 ^ 6)| :=
  benchmark_iteration_time .uint8_t 1 3 3 .BORDER_REPLICATE ⟨[640, 480], [100, 250]⟩ 640 640
    (by decide)

/-- Claim C7, counterexample: for a measured time of `m = 100` microseconds the value handed
to `state.SetIterationTime` is the double `4722366482869645 / 2^71`, which is not the
rational `100 / (50 * 10^6)`. -/
theorem benchmark_iteration_time_rounded :
    (BM_BoxFilter_ppl_aarch64 .uint8_t 1 3 3 .BORDER_REPLICATE ⟨[640, 480], [100]⟩ 640
        640).iterationTimes = [some (4722366482869645 / 2361183241434822606848)] ∧
    (4722366482869645 / 2361183241434822606848 : ℚ) ≠ 100 / (50 * 10 ^ 6) := by
  constructor
  · decide!
  · norm_num

/-- Claim C8: the benchmark body makes exactly `5 + 50*n` engine calls when the state yields
`n` timed iterations, whatever the element type, channel count, kernel size, border mode
and image size; every registered benchmark has `Iterations(10)` and so makes exactly 505
calls. -/
theorem benchmark_call_count (T : ElemType) (channels : Nat) (ksize_x ksize_y : Int)
    (border_type : BorderType) (state : State) (srcStep dstStep : Nat)
    (reg : Registration) (hreg : reg ∈ registeredPpl) (elapsed : List Int)
    (hiter : elapsed.length = reg.iterations) :
    (BM_BoxFilter_ppl_aarch64 T channels ksize_x ksize_y border_type state srcStep
        dstStep).calls.length = 5 + 50 * state.iterations ∧
    reg.iterations = 10 ∧
    (runPpl reg elapsed srcStep dstStep).calls.length = 505 := by
  obtain ⟨_, hit, _⟩ := registeredPpl_spec reg hreg
  refine ⟨by rw [ppl_calls_eq, List.length_replicate], hit, ?_⟩
  unfold runPpl
  rw [ppl_calls_eq, List.length_replicate]
  simp only [State.iterations]
  omega

/-- Claim C8, witness: ten timed iterations of the registration `uint8_t, c1, 3, 3,
BORDER_REPLICATE`. -/
theorem benchmark_call_count_witness :
    (BM_BoxFilter_ppl_aarch64 .uint8_t 1 3 3 .BORDER_REPLICATE
        ⟨[640, 480], [9, 8, 7, 6, 5, 4, 3, 2, 1, 0]⟩ 640 640).calls.length
      = 5 + 50 * State.iterations ⟨[640, 480], [9, 8, 7, 6, 5, 4, 3, 2, 1, 0]⟩ ∧
    Registration.iterations ⟨.uint8_t, 1, 3, 3, .BORDER_REPLICATE, [640, 480], true, 10⟩ = 10 ∧
    (runPpl ⟨.uint8_t, 1, 3, 3, .BORDER_REPLICATE, [640, 480], true, 10⟩
        [9, 8, 7, 6, 5, 4, 3, 2, 1, 0] 640 640).calls.length = 505 :=
  benchmark_call_count .uint8_t 1 3 3 .BORDER_REPLICATE
    ⟨[640, 480], [9, 8, 7, 6, 5, 4, 3, 2, 1, 0]⟩ 640 640
    ⟨.uint8_t, 1, 3, 3, .BORDER_REPLICATE, [640, 480], true, 10⟩ (by decide)
    [9, 8, 7, 6, 5, 4, 3, 2, 1, 0] (by decide)

/-- Claim C9: accumulating 8-bit samples in a 32-bit unsigned integer does not overflow for
supported kernel widths.  For `1 ≤ kx < 2^24` and any `kx` samples in `[0, 255]` the sum is
at most `255 * kx < 2^32`, so the sum computed modulo `2^32` equals the true sum; every
registered kernel width (3, 5, 25, 43) is in that range. -/
theorem accumulateU32_no_overflow (samples : List Nat) (h1 : 1 ≤ samples.length) (h2 : samples.length < 2 ^ 24)
    (hu8 : ∀ x ∈ samples, x ≤ U8_MAX) :
    samples.sum ≤ 255 * samples.length ∧ 255 * samples.length < 2 ^ 32 ∧
    accumulateU32 samples = samples.sum ∧
    ∀ reg ∈ registeredPpl,
      (reg.ksize_x = 3 ∨ reg.ksize_x = 5 ∨ reg.ksize_x = 25 ∨ reg.ksize_x = 43) ∧
      1 ≤ reg.ksize_x ∧ reg.ksize_x < 2 ^ 24 := by
  have hs := list_sum_le samples U8_MAX hu8
  unfold U8_MAX at hs
  refine ⟨hs, by omega, ?_, ?_⟩
  · rw [accumulateU32_eq]
    apply Nat.mod_eq_of_lt
    unfold U32
    omega
  · intro reg hreg
    obtain ⟨_, _, _, _, _, hk⟩ := registeredPpl_spec reg hreg
    refine ⟨hk, by omega, by omega⟩

/-- Claim C9, witness: three samples of the largest value. -/
theorem accumulateU32_no_overflow_witness :
    [255, 255, 255].sum ≤ 255 * [255, 255, 255].length ∧
    255 * [255, 255, 255].length < 2 ^ 32 ∧
    accumulateU32 [255, 255, 255] = [255, 255, 255].sum ∧
    ∀ reg ∈ registeredPpl,
      (reg.ksize_x = 3 ∨ reg.ksize_x = 5 ∨ reg.ksize_x = 25 ∨ reg.ksize_x = 43) ∧
      1 ≤ reg.ksize_x ∧ reg.ksize_x < 2 ^ 24 :=
  accumulateU32_no_overflow [255, 255, 255] (by decide) (by decide) (by decide)

/-- Claim C10: for every configuration registered for the OpenCV benchmark (with the OpenCV
block compiled in), `cv::boxFilter` receives the same filter parameters as the engine call
of the identically parameterised ppl.cv benchmark: the kernel `cv::Size(ksize_x, ksize_x)`
equals `(ksize_x, ksize_y)` because every registration has `ksize_x = ksize_y`, and the
normalize flag, border mode, element type, channels and image size agree; both benchmarks
have the same registrations. -/
theorem opencv_benchmark_same_parameters (reg : Registration) (hreg : reg ∈ registeredOpencv true)
    (elapsed : List Int) (srcStep dstStep : Nat) :
    registeredOpencv true = registeredPpl ∧
    reg.ksize_x = reg.ksize_y ∧
    (runOpencv reg elapsed srcStep dstStep).calls.length
      = (runPpl reg elapsed srcStep dstStep).calls.length ∧
    (runOpencv reg elapsed srcStep dstStep).calls ≠ [] ∧
    ∀ cvCall ∈ (runOpencv reg elapsed srcStep dstStep).calls,
      ∀ pplCall ∈ (runPpl reg elapsed srcStep dstStep).calls,
        cvCall.ksize = (pplCall.ksize_x, pplCall.ksize_y) ∧
        cvCall.ksize = (reg.ksize_x, reg.ksize_y) ∧
        cvCall.anchor = (-1, -1) ∧
        cvCall.normalize = pplCall.normalize ∧
        cvCall.borderType.sameNamed = pplCall.border_type ∧
        cvCall.type = pplCall.type ∧ cvCall.channels = pplCall.channels ∧
        cvCall.src.rows = pplCall.height ∧ cvCall.src.cols = pplCall.width := by
  rw [registeredOpencv_eq] at hreg
  obtain ⟨_, _, _, _, hxy, _⟩ := registeredPpl_spec reg hreg
  unfold runOpencv runPpl
  rw [opencv_calls_eq, ppl_calls_eq]
  refine ⟨registeredOpencv_eq, hxy, by simp, ?_, ?_⟩
  · intro h
    have := congrArg List.length h
    simp at this
  · intro cvCall hcv pplCall hppl
    have h1 := List.eq_of_mem_replicate hcv
    have h2 := List.eq_of_mem_replicate hppl
    subst h1 h2
    refine ⟨by rw [hxy], by rw [hxy], rfl, rfl, ?_, rfl, rfl, rfl, rfl⟩
    cases reg.border_type <;> rfl

/-- Claim C10, witness: the registration `float, c4, 25, 25, BORDER_REFLECT` with two timed
iterations. -/
theorem opencv_benchmark_same_parameters_witness :
    registeredOpencv true = registeredPpl ∧
    Registration.ksize_x ⟨.float, 4, 25, 25, .BORDER_REFLECT, [640, 480], true, 10⟩
      = Registration.ksize_y ⟨.float, 4, 25, 25, .BORDER_REFLECT, [640, 480], true, 10⟩ ∧
    (runOpencv ⟨.float, 4, 25, 25, .BORDER_REFLECT, [640, 480], true, 10⟩ [3, 4] 10240
        10240).calls.length
      = (runPpl ⟨.float, 4, 25, 25, .BORDER_REFLECT, [640, 480], true, 10⟩ [3, 4] 10240
          10240).calls.length ∧
    (runOpencv ⟨.float, 4, 25, 25, .BORDER_REFLECT, [640, 480], true, 10⟩ [3, 4] 10240
        10240).calls ≠ [] ∧
    ∀ cvCall ∈ (runOpencv ⟨.float, 4, 25, 25, .BORDER_REFLECT, [640, 480], true, 10⟩ [3, 4]
        10240 10240).calls,
      ∀ pplCall ∈ (runPpl ⟨.float, 4, 25, 25, .BORDER_REFLECT, [640, 480], true, 10⟩ [3, 4]
          10240 10240).calls,
        cvCall.ksize = (pplCall.ksize_x, pplCall.ksize_y) ∧
        cvCall.ksize = ((25 : Int), (25 : Int)) ∧
        cvCall.anchor = (-1, -1) ∧
        cvCall.normalize = pplCall.normalize ∧
        cvCall.borderType.sameNamed = pplCall.border_type ∧
        cvCall.type = pplCall.type ∧ cvCall.channels = pplCall.channels ∧
        cvCall.src.rows = pplCall.height ∧ cvCall.src.cols = pplCall.width :=
  opencv_benchmark_same_parameters ⟨.float, 4, 25, 25, .BORDER_REFLECT, [640, 480], true, 10⟩
    (by decide) [3, 4] 10240 10240

end PplCv
